import Mathlib

/-!
# ChessGrid — verification of the Game Session Orchestrator

A shallow embedding of the ChessGrid server (`server.js`): the session store,
player bindings, the `/move`, `/game/:gameId`, `/api/games/:gameId/join` and
`/api/games/:gameId/solo` routes, serialization to and restoration from the
durable snapshot, and the helpers they use (`createNewGame`, `resetGameState`,
`assignPlayer`, `serializeGame`, `loadGamesFromDisk`, `sanitizePlayer`,
`getOrCreateGame`).

The chess rules oracle is the external `chess.js` library, which is not part
of this repository; it is modelled from the spec's interface contract (§6):
positions, legal-move generation, move application, terminal conditions, SAN
for committed moves, and the FEN-style serialized position format.
Nondeterministic inputs of the server (`uuidv4` tokens, `Date.now()`
timestamps, `Math.random()` seat picks) are taken as parameters.
-/

set_option maxRecDepth 10000
set_option maxHeartbeats 1600000

namespace ChessGrid

/-! ## Rules oracle: board data

Modelled from the spec: the external rules oracle (`chess.js`), specified in
§6 as `initialPosition`, `applyMove`, `serialize`/`loadPosition` and the
terminal-condition predicates. Squares are indexed 0..63 in FEN order:
index 0 is a8, index 7 is h8, index 56 is a1, index 63 is h1. -/

inductive Color where
  | white
  | black
deriving DecidableEq

def Color.other : Color → Color
  | .white => .black
  | .black => .white

inductive PieceKind where
  | pawn
  | knight
  | bishop
  | rook
  | queen
  | king
deriving DecidableEq

structure Piece where
  color : Color
  kind : PieceKind
deriving DecidableEq

abbrev Board := List (Option Piece)

structure Castling where
  wk : Bool
  wq : Bool
  bk : Bool
  bq : Bool
deriving DecidableEq

/-- Modelled from the spec: the oracle's opaque board-state handle.  The
fields are exactly what the FEN-equivalent serialized form records (§6);
repetition history is not part of the serialized position. -/
structure Position where
  board : Board
  turn : Color
  castling : Castling
  ep : Option Nat
  halfmove : Nat
  fullmove : Nat
deriving DecidableEq

def sqFile (sq : Nat) : Nat := sq % 8

def sqRow (sq : Nat) : Nat := sq / 8

/-- The square `df` files and `dr` rows away, if it stays on the board. -/
def target (sq : Nat) (df dr : Int) : Option Nat :=
  let f : Int := (sqFile sq : Int) + df
  let r : Int := (sqRow sq : Int) + dr
  if 0 ≤ f ∧ f < 8 ∧ 0 ≤ r ∧ r < 8 then some (r * 8 + f).toNat else none

def pieceAt (b : Board) (sq : Nat) : Option Piece := b.getD sq none

def knightOffs : List (Int × Int) :=
  [(1, 2), (2, 1), (2, -1), (1, -2), (-1, -2), (-2, -1), (-2, 1), (-1, 2)]

def kingOffs : List (Int × Int) :=
  [(1, 0), (1, 1), (0, 1), (-1, 1), (-1, 0), (-1, -1), (0, -1), (1, -1)]

def rookDirs : List (Int × Int) := [(1, 0), (-1, 0), (0, 1), (0, -1)]

def bishopDirs : List (Int × Int) := [(1, 1), (1, -1), (-1, 1), (-1, -1)]

/-- First piece along a ray from `sq` in direction `d` (fuel-bounded). -/
def rayHitAux (b : Board) (d : Int × Int) : Nat → Nat → Option Piece
  | _, 0 => none
  | sq, fuel + 1 =>
    match target sq d.1 d.2 with
    | none => none
    | some t =>
      match pieceAt b t with
      | some p => some p
      | none => rayHitAux b d t fuel

def rayHit (b : Board) (sq : Nat) (d : Int × Int) : Option Piece :=
  rayHitAux b d sq 8

def isPieceOf (op : Option Piece) (c : Color) (k : PieceKind) : Bool :=
  decide (op = some ⟨c, k⟩)

/-- Is square `sq` attacked by any piece of color `c`? -/
def attacked (b : Board) (sq : Nat) (c : Color) : Bool :=
  knightOffs.any (fun d =>
      match target sq d.1 d.2 with
      | some t => isPieceOf (pieceAt b t) c .knight
      | none => false)
  || kingOffs.any (fun d =>
      match target sq d.1 d.2 with
      | some t => isPieceOf (pieceAt b t) c .king
      | none => false)
  || (let dr : Int := match c with | .white => 1 | .black => -1
      [(-1 : Int), 1].any (fun df =>
        match target sq df dr with
        | some t => isPieceOf (pieceAt b t) c .pawn
        | none => false))
  || rookDirs.any (fun d =>
      match rayHit b sq d with
      | some p => decide (p.color = c) && (decide (p.kind = PieceKind.rook) || decide (p.kind = PieceKind.queen))
      | none => false)
  || bishopDirs.any (fun d =>
      match rayHit b sq d with
      | some p => decide (p.color = c) && (decide (p.kind = PieceKind.bishop) || decide (p.kind = PieceKind.queen))
      | none => false)

inductive MvKind where
  | normal
  | dbl
  | ep
  | castleK
  | castleQ
deriving DecidableEq

/-- A candidate move: source and destination squares, a promotion piece when
the move is a pawn promotion, and its special kind. -/
structure Mv where
  src : Nat
  dst : Nat
  promo : Option PieceKind
  kind : MvKind
deriving DecidableEq

def pawnStartRow (c : Color) : Nat := match c with | .white => 6 | .black => 1

def pawnDir (c : Color) : Int := match c with | .white => -1 | .black => 1

def promoRow (c : Color) : Nat := match c with | .white => 0 | .black => 7

def promoExpand (src dst : Nat) (isPromo : Bool) : List Mv :=
  if isPromo then
    [⟨src, dst, some .queen, .normal⟩, ⟨src, dst, some .rook, .normal⟩,
     ⟨src, dst, some .bishop, .normal⟩, ⟨src, dst, some .knight, .normal⟩]
  else [⟨src, dst, none, .normal⟩]

def genPawn (p : Position) (sq : Nat) (c : Color) : List Mv :=
  let d := pawnDir c
  let fwd :=
    match target sq 0 d with
    | some t =>
      if pieceAt p.board t = none then
        promoExpand sq t (decide (sqRow t = promoRow c)) ++
          (if sqRow sq = pawnStartRow c then
            match target sq 0 (2 * d) with
            | some t2 => if pieceAt p.board t2 = none then [⟨sq, t2, none, .dbl⟩] else []
            | none => []
          else [])
      else []
    | none => []
  let caps := [(-1 : Int), 1].flatMap (fun df =>
    match target sq df d with
    | some t =>
      match pieceAt p.board t with
      | some q => if q.color ≠ c then promoExpand sq t (decide (sqRow t = promoRow c)) else []
      | none => if p.ep = some t then [⟨sq, t, none, .ep⟩] else []
    | none => [])
  fwd ++ caps

def stepGen (p : Position) (sq : Nat) (c : Color) (offs : List (Int × Int)) : List Mv :=
  offs.flatMap (fun d =>
    match target sq d.1 d.2 with
    | some t =>
      match pieceAt p.board t with
      | some q => if q.color ≠ c then [⟨sq, t, none, .normal⟩] else []
      | none => [⟨sq, t, none, .normal⟩]
    | none => [])

def rayGenAux (b : Board) (c : Color) (src : Nat) (d : Int × Int) : Nat → Nat → List Mv
  | _, 0 => []
  | cur, fuel + 1 =>
    match target cur d.1 d.2 with
    | none => []
    | some t =>
      match pieceAt b t with
      | some q => if q.color ≠ c then [⟨src, t, none, .normal⟩] else []
      | none => ⟨src, t, none, .normal⟩ :: rayGenAux b c src d t fuel

def rayGen (p : Position) (sq : Nat) (c : Color) (dirs : List (Int × Int)) : List Mv :=
  dirs.flatMap (fun d => rayGenAux p.board c sq d sq 8)

def castleRow (c : Color) : Nat := match c with | .white => 7 | .black => 0

def genCastle (p : Position) (c : Color) : List Mv :=
  let row := castleRow c
  let e := row * 8 + 4
  let kingOk := isPieceOf (pieceAt p.board e) c .king
  let opp := c.other
  let kRight := match c with | .white => p.castling.wk | .black => p.castling.bk
  let qRight := match c with | .white => p.castling.wq | .black => p.castling.bq
  let kside := kRight && kingOk
    && decide (pieceAt p.board (row * 8 + 5) = none)
    && decide (pieceAt p.board (row * 8 + 6) = none)
    && isPieceOf (pieceAt p.board (row * 8 + 7)) c .rook
    && !attacked p.board e opp
    && !attacked p.board (row * 8 + 5) opp
    && !attacked p.board (row * 8 + 6) opp
  let qside := qRight && kingOk
    && decide (pieceAt p.board (row * 8 + 1) = none)
    && decide (pieceAt p.board (row * 8 + 2) = none)
    && decide (pieceAt p.board (row * 8 + 3) = none)
    && isPieceOf (pieceAt p.board (row * 8)) c .rook
    && !attacked p.board e opp
    && !attacked p.board (row * 8 + 3) opp
    && !attacked p.board (row * 8 + 2) opp
  (if kside then [⟨e, row * 8 + 6, none, .castleK⟩] else [])
    ++ (if qside then [⟨e, row * 8 + 2, none, .castleQ⟩] else [])

/-- Pseudo-legal moves of the side to move from square `sq` (castling already
filtered for attacked transit squares). -/
def genPseudo (p : Position) (sq : Nat) : List Mv :=
  match pieceAt p.board sq with
  | none => []
  | some pc =>
    if pc.color ≠ p.turn then []
    else
      match pc.kind with
      | .pawn => genPawn p sq pc.color
      | .knight => stepGen p sq pc.color knightOffs
      | .king => stepGen p sq pc.color kingOffs ++ genCastle p pc.color
      | .bishop => rayGen p sq pc.color bishopDirs
      | .rook => rayGen p sq pc.color rookDirs
      | .queen => rayGen p sq pc.color (rookDirs ++ bishopDirs)

/-- Clear the castling rights associated with square `sq` (a king or rook
leaving its home square, or a rook being captured on it). -/
def clearCastleOnSq (cr : Castling) (sq : Nat) : Castling :=
  { wk := cr.wk && decide (sq ≠ 63) && decide (sq ≠ 60)
    wq := cr.wq && decide (sq ≠ 56) && decide (sq ≠ 60)
    bk := cr.bk && decide (sq ≠ 7) && decide (sq ≠ 4)
    bq := cr.bq && decide (sq ≠ 0) && decide (sq ≠ 4) }

def applyMv (p : Position) (m : Mv) : Position :=
  let c := p.turn
  let movedPc : Piece :=
    match pieceAt p.board m.src with
    | some pc => match m.promo with | some k => ⟨c, k⟩ | none => pc
    | none => ⟨c, .pawn⟩
  let pawnMv : Bool :=
    match pieceAt p.board m.src with
    | some pc => decide (pc.kind = PieceKind.pawn)
    | none => false
  let isCap : Bool := (pieceAt p.board m.dst).isSome || decide (m.kind = MvKind.ep)
  let b1 := (p.board.set m.src none).set m.dst (some movedPc)
  let b2 :=
    match m.kind with
    | .ep => b1.set (match c with | .white => m.dst + 8 | .black => m.dst - 8) none
    | .castleK =>
      let row := sqRow m.src
      (b1.set (row * 8 + 7) none).set (row * 8 + 5) (some ⟨c, .rook⟩)
    | .castleQ =>
      let row := sqRow m.src
      (b1.set (row * 8) none).set (row * 8 + 3) (some ⟨c, .rook⟩)
    | _ => b1
  { board := b2
    turn := c.other
    castling := clearCastleOnSq (clearCastleOnSq p.castling m.src) m.dst
    ep := if m.kind = MvKind.dbl then some ((m.src + m.dst) / 2) else none
    halfmove := if pawnMv || isCap then 0 else p.halfmove + 1
    fullmove := p.fullmove + (match c with | .black => 1 | .white => 0) }

def findKing (b : Board) (c : Color) : Option Nat :=
  (List.range 64).find? (fun sq => isPieceOf (pieceAt b sq) c .king)

def inCheck (p : Position) (c : Color) : Bool :=
  match findKing p.board c with
  | some k => attacked p.board k c.other
  | none => false

/-- Legal moves of the side to move from `sq`: pseudo-legal moves whose
application does not leave the mover's own king attacked. -/
def legalFrom (p : Position) (sq : Nat) : List Mv :=
  (genPseudo p sq).filter (fun m => !inCheck (applyMv p m) p.turn)

def allLegal (p : Position) : List Mv :=
  (List.range 64).flatMap (legalFrom p)

def hasLegal (p : Position) : Bool :=
  (List.range 64).any (fun sq => !(legalFrom p sq).isEmpty)

def isCheck (p : Position) : Bool := inCheck p p.turn

def isCheckmate (p : Position) : Bool := inCheck p p.turn && !hasLegal p

def isStalemate (p : Position) : Bool := !inCheck p p.turn && !hasLegal p

def materialList (b : Board) : List (Nat × Piece) :=
  ((List.range 64).filterMap (fun sq => (pieceAt b sq).map (fun pc => (sq, pc)))).filter
    (fun x => decide (x.2.kind ≠ PieceKind.king))

def insufficientMaterial (p : Position) : Bool :=
  match materialList p.board with
  | [] => true
  | [x] => decide (x.2.kind = PieceKind.knight) || decide (x.2.kind = PieceKind.bishop)
  | x :: xs =>
    decide (x.2.kind = PieceKind.bishop)
      && xs.all (fun y => decide (y.2.kind = PieceKind.bishop)
        && decide ((sqRow y.1 + sqFile y.1) % 2 = (sqRow x.1 + sqFile x.1) % 2))

/-- Modelled from the spec: the oracle's draw predicate (stalemate, the
fifty-move rule and insufficient material; repetition draws depend on game
history outside the serialized position and are not modelled). -/
def isDraw (p : Position) : Bool :=
  decide (p.halfmove ≥ 100) || isStalemate p || insufficientMaterial p

def backRank (c : Color) : List (Option Piece) :=
  [PieceKind.rook, .knight, .bishop, .queen, .king, .bishop, .knight, .rook].map
    (fun k => some ⟨c, k⟩)

def pawnRank (c : Color) : List (Option Piece) :=
  List.replicate 8 (some ⟨c, .pawn⟩)

def emptyRank : List (Option Piece) := List.replicate 8 none

def initBoard : Board :=
  backRank .black ++ pawnRank .black ++ emptyRank ++ emptyRank ++ emptyRank ++ emptyRank
    ++ pawnRank .white ++ backRank .white

/-- Modelled from the spec: `initialPosition()` of the rules oracle. -/
def initialPosition : Position :=
  { board := initBoard, turn := .white, castling := ⟨true, true, true, true⟩
    ep := none, halfmove := 0, fullmove := 1 }

/-! ## Rules oracle: algebraic squares and SAN -/

def fileChars : List Char := ['a', 'b', 'c', 'd', 'e', 'f', 'g', 'h']

/-- Rank characters indexed by row (row 0 is rank 8). -/
def rowChars : List Char := ['8', '7', '6', '5', '4', '3', '2', '1']

def fileChar (f : Nat) : Char := fileChars.getD f 'a'

def rowChar (row : Nat) : Char := rowChars.getD row '1'

def sqAlg (sq : Nat) : List Char := [fileChar (sqFile sq), rowChar (sqRow sq)]

def fileOfChar (c : Char) : Option Nat :=
  if c = 'a' then some 0 else if c = 'b' then some 1 else if c = 'c' then some 2
  else if c = 'd' then some 3 else if c = 'e' then some 4 else if c = 'f' then some 5
  else if c = 'g' then some 6 else if c = 'h' then some 7 else none

def rowOfChar (c : Char) : Option Nat :=
  if c = '8' then some 0 else if c = '7' then some 1 else if c = '6' then some 2
  else if c = '5' then some 3 else if c = '4' then some 4 else if c = '3' then some 5
  else if c = '2' then some 6 else if c = '1' then some 7 else none

/-- Parse an algebraic square name such as `"e2"` into a board index. -/
def parseSq (s : String) : Option Nat :=
  match s.data with
  | [cf, cr] =>
    match fileOfChar cf, rowOfChar cr with
    | some f, some r => some (r * 8 + f)
    | _, _ => none
  | _ => none

def pieceLetter : PieceKind → List Char
  | .pawn => []
  | .knight => ['N']
  | .bishop => ['B']
  | .rook => ['R']
  | .queen => ['Q']
  | .king => ['K']

/-- Modelled from the spec: the canonical notation (`sanNotation` in the §6
oracle contract) of a legal move `m` in position `p`, in the style of
`chess.js` (piece letter, disambiguation, capture mark, destination,
promotion suffix, and a check or mate suffix). -/
def sanOf (p : Position) (m : Mv) : String :=
  let p2 := applyMv p m
  let suffix : List Char :=
    if inCheck p2 p2.turn then (if hasLegal p2 then ['+'] else ['#']) else []
  let core : List Char :=
    match m.kind with
    | .castleK => ['O', '-', 'O']
    | .castleQ => ['O', '-', 'O', '-', 'O']
    | _ =>
      let pc := (pieceAt p.board m.src).getD ⟨p.turn, .pawn⟩
      let isCap : Bool := (pieceAt p.board m.dst).isSome || decide (m.kind = MvKind.ep)
      if pc.kind = PieceKind.pawn then
        (if isCap then [fileChar (sqFile m.src), 'x'] else []) ++ sqAlg m.dst ++
          (match m.promo with
           | some k => '=' :: pieceLetter k
           | none => [])
      else
        let others := (allLegal p).filter (fun m2 =>
          decide (m2.dst = m.dst) && decide (m2.src ≠ m.src)
            && decide ((pieceAt p.board m2.src).map Piece.kind = some pc.kind))
        let disamb : List Char :=
          if others.isEmpty then []
          else if others.all (fun m2 => decide (sqFile m2.src ≠ sqFile m.src)) then
            [fileChar (sqFile m.src)]
          else if others.all (fun m2 => decide (sqRow m2.src ≠ sqRow m.src)) then
            [rowChar (sqRow m.src)]
          else sqAlg m.src
        pieceLetter pc.kind ++ disamb ++ (if isCap then ['x'] else []) ++ sqAlg m.dst
  ⟨core ++ suffix⟩

/-! ## Rules oracle: the stateful `Chess` instance and `move` -/

/-- A committed move as reported by the oracle (the subset of the `chess.js`
verbose move object the server reads: `from`, `to`, `san`, `color`,
`captured`). -/
structure MoveInfo where
  src : String
  dst : String
  san : String
  color : Color
  captured : Option PieceKind
deriving DecidableEq

/-- Modelled from the spec: a `new Chess()` instance — a position together
with the instance-local committed-move history (used by
`chess.history({verbose: true})`). -/
structure ChessInst where
  pos : Position
  hist : List MoveInfo
deriving DecidableEq

def newChess : ChessInst := { pos := initialPosition, hist := [] }

/-- The promotion hint: an unrecognized hint falls back to queen, the
default promotion choice of §4.3 step 3. -/
def parsePromo (s : String) : PieceKind :=
  if s = "r" then .rook else if s = "b" then .bishop else if s = "n" then .knight else .queen

/-- The square-resolved body of the oracle's `applyMove`: pick the matching
legal move from `src` and commit it. -/
def chessMoveCore (st : ChessInst) (src dst : Nat) (promoS : String) :
    Option (ChessInst × MoveInfo) :=
  match (legalFrom st.pos src).find?
      (fun m => decide (m.dst = dst)
        && (m.promo.isNone || decide (m.promo = some (parsePromo promoS)))) with
  | some m =>
    let captured : Option PieceKind :=
      match pieceAt st.pos.board m.dst with
      | some q => some q.kind
      | none => if m.kind = MvKind.ep then some .pawn else none
    let info : MoveInfo :=
      { src := ⟨sqAlg src⟩, dst := ⟨sqAlg dst⟩, san := sanOf st.pos m
        color := st.pos.turn, captured := captured }
    some ({ pos := applyMv st.pos m, hist := st.hist ++ [info] }, info)
  | none => none

/-- Modelled from the spec: the oracle's `applyMove` (`chess.move({from, to,
promotion})`).  Returns `none` on an illegal move, a malformed square, or no
piece movable from `from`; on success returns the updated instance and the
committed move's digest. -/
def chessMove (st : ChessInst) (fromS toS promoS : String) : Option (ChessInst × MoveInfo) :=
  match parseSq fromS, parseSq toS with
  | some src, some dst => chessMoveCore st src dst promoS
  | _, _ => none

/-! ## Rules oracle: FEN-style serialized position format

Modelled from the spec: `serialize(Position) -> serializedForm` and
`loadPosition(serializedForm)` (§6), the FEN-equivalent stable text format
used for persistence. -/

def fenPieceChar (pc : Piece) : Char :=
  match pc.color, pc.kind with
  | .white, .pawn => 'P'
  | .white, .knight => 'N'
  | .white, .bishop => 'B'
  | .white, .rook => 'R'
  | .white, .queen => 'Q'
  | .white, .king => 'K'
  | .black, .pawn => 'p'
  | .black, .knight => 'n'
  | .black, .bishop => 'b'
  | .black, .rook => 'r'
  | .black, .queen => 'q'
  | .black, .king => 'k'

def fenCharPiece (c : Char) : Option Piece :=
  if c = 'P' then some ⟨.white, .pawn⟩
  else if c = 'N' then some ⟨.white, .knight⟩
  else if c = 'B' then some ⟨.white, .bishop⟩
  else if c = 'R' then some ⟨.white, .rook⟩
  else if c = 'Q' then some ⟨.white, .queen⟩
  else if c = 'K' then some ⟨.white, .king⟩
  else if c = 'p' then some ⟨.black, .pawn⟩
  else if c = 'n' then some ⟨.black, .knight⟩
  else if c = 'b' then some ⟨.black, .bishop⟩
  else if c = 'r' then some ⟨.black, .rook⟩
  else if c = 'q' then some ⟨.black, .queen⟩
  else if c = 'k' then some ⟨.black, .king⟩
  else none

def digitChar (n : Nat) : Char := Char.ofNat (48 + n)

/-- Encode one rank, run-length encoding runs of empty squares; `cnt` is the
length of the pending run of empties. -/
def encRankAux : List (Option Piece) → Nat → List Char
  | [], 0 => []
  | [], cnt + 1 => [digitChar (cnt + 1)]
  | none :: t, cnt => encRankAux t (cnt + 1)
  | some pc :: t, 0 => fenPieceChar pc :: encRankAux t 0
  | some pc :: t, cnt + 1 => digitChar (cnt + 1) :: fenPieceChar pc :: encRankAux t 0

/-- Encode `n` ranks of the board, separated by `/`. -/
def encBoardAux : Nat → List (Option Piece) → List Char
  | 0, _ => []
  | 1, b => encRankAux (b.take 8) 0
  | n + 2, b => encRankAux (b.take 8) 0 ++ '/' :: encBoardAux (n + 1) (b.drop 8)

def encCastle (cr : Castling) : List Char :=
  let l := (if cr.wk then ['K'] else []) ++ (if cr.wq then ['Q'] else [])
    ++ (if cr.bk then ['k'] else []) ++ (if cr.bq then ['q'] else [])
  if l.isEmpty then ['-'] else l

def encEp : Option Nat → List Char
  | none => ['-']
  | some sq => sqAlg sq

def turnChar : Color → Char
  | .white => 'w'
  | .black => 'b'

def natChars (n : Nat) : List Char :=
  if _h : n < 10 then [digitChar n]
  else natChars (n / 10) ++ [digitChar (n % 10)]
decreasing_by exact Nat.div_lt_self (by omega) (by omega)

def fenChars (p : Position) : List Char :=
  encBoardAux 8 p.board ++ ' ' :: turnChar p.turn :: ' '
    :: (encCastle p.castling ++ ' '
      :: (encEp p.ep ++ ' '
        :: (natChars p.halfmove ++ ' ' :: natChars p.fullmove)))

/-- `chess.fen()`. -/
def fenOf (p : Position) : String := ⟨fenChars p⟩

/-- The value of a digit character `1`..`8`, used for empty runs in a rank. -/
def rankDigitVal (c : Char) : Option Nat :=
  (['1', '2', '3', '4', '5', '6', '7', '8'].findIdx? (· = c)).map (· + 1)

/-- Parse one rank: consume piece and digit characters, stopping at the
first character that is neither. -/
def pRank : List Char → List (Option Piece) × List Char
  | [] => ([], [])
  | c :: rest =>
    match rankDigitVal c with
    | some d =>
      let (cells, rem) := pRank rest
      (List.replicate d none ++ cells, rem)
    | none =>
      match fenCharPiece c with
      | some pc =>
        let (cells, rem) := pRank rest
        (some pc :: cells, rem)
      | none => ([], c :: rest)

/-- Parse `n` ranks separated by `/`, validating that each has 8 cells. -/
def pBoard : Nat → List Char → Option (List (Option Piece) × List Char)
  | 0, s => some ([], s)
  | 1, s =>
    let (cells, rem) := pRank s
    if cells.length = 8 then some (cells, rem) else none
  | n + 2, s =>
    let (cells, rem) := pRank s
    if cells.length = 8 then
      match rem with
      | '/' :: rest => (pBoard (n + 1) rest).map (fun x => (cells ++ x.1, x.2))
      | _ => none
    else none

def pFlag (c : Char) (s : List Char) : Bool × List Char :=
  match s with
  | c' :: t => if c' = c then (true, t) else (false, s)
  | [] => (false, s)

def pCastle (s : List Char) : Option (Castling × List Char) :=
  match s with
  | [] => none
  | c :: rest =>
    if c = '-' then some (⟨false, false, false, false⟩, rest)
    else
      let (wk, s1) := pFlag 'K' (c :: rest)
      let (wq, s2) := pFlag 'Q' s1
      let (bk, s3) := pFlag 'k' s2
      let (bq, s4) := pFlag 'q' s3
      if wk || wq || bk || bq then some (⟨wk, wq, bk, bq⟩, s4) else none

def pEp (s : List Char) : Option (Option Nat × List Char) :=
  match s with
  | [] => none
  | c :: rest =>
    if c = '-' then some (none, rest)
    else
      match rest with
      | c2 :: rest2 =>
        match fileOfChar c, rowOfChar c2 with
        | some f, some r => some (some (r * 8 + f), rest2)
        | _, _ => none
      | [] => none

def digitVal (c : Char) : Option Nat :=
  ['0', '1', '2', '3', '4', '5', '6', '7', '8', '9'].findIdx? (· = c)

def pNatAux : List Char → Nat → Nat × List Char
  | [], acc => (acc, [])
  | c :: rest, acc =>
    match digitVal c with
    | some d => pNatAux rest (acc * 10 + d)
    | none => (acc, c :: rest)

def pNat (s : List Char) : Option (Nat × List Char) :=
  match s with
  | c :: _ => if (digitVal c).isSome then some (pNatAux s 0) else none
  | [] => none

def turnOfChar (c : Char) : Option Color :=
  if c = 'w' then some .white else if c = 'b' then some .black else none

def fenParse (s : List Char) : Option Position :=
  match pBoard 8 s with
  | none => none
  | some (b, rest) =>
    match rest with
    | ' ' :: ct :: ' ' :: rest2 =>
      match turnOfChar ct with
      | none => none
      | some t =>
        match pCastle rest2 with
        | none => none
        | some (cr, rest3) =>
          match rest3 with
          | ' ' :: rest4 =>
            match pEp rest4 with
            | none => none
            | some (e, rest5) =>
              match rest5 with
              | ' ' :: rest6 =>
                match pNat rest6 with
                | none => none
                | some (hm, rest7) =>
                  match rest7 with
                  | ' ' :: rest8 =>
                    match pNat rest8 with
                    | none => none
                    | some (fm, rest9) =>
                      if rest9 = [] then some ⟨b, t, cr, e, hm, fm⟩ else none
                  | _ => none
              | _ => none
          | _ => none
    | _ => none

/-- `chess.load(fen)`: `none` models the throw on an invalid FEN. -/
def fenLoad (s : String) : Option Position := fenParse s.data

/-! ## Server: players and sessions (`server.js`) -/

/-- A player binding (`createPlayer`): `token` is `null` for bindings made
through the frame channel. -/
structure Player where
  id : String
  name : String
  token : Option String
  source : String
  joinedAt : Nat
deriving DecidableEq

/-- `createPlayer({id, name, token, source})`; `name || 'Player'`. -/
def createPlayer (id name : String) (token : Option String) (source : String)
    (now : Nat) : Player :=
  { id := id, name := if name = "" then "Player" else name, token := token
    source := source, joinedAt := now }

def isWsChar (c : Char) : Bool :=
  c = ' ' || c = '\t' || c = '\n' || c = '\r'

/-- JS `String.prototype.trim`. -/
def jsTrim (s : String) : String :=
  ⟨((s.data.dropWhile isWsChar).reverse.dropWhile isWsChar).reverse⟩

/-- `formatPlayerName(name, fallback)`: `none` models an absent field;
`slice(0, 40)` bounds the display name. -/
def formatPlayerName (name : Option String) (fallback : String) : String :=
  match name with
  | none => fallback
  | some s =>
    let trimmed := jsTrim s
    if trimmed = "" then fallback else ⟨trimmed.data.take 40⟩

/-- The token-stripped view produced by `sanitizePlayer`. -/
structure SanPlayer where
  id : String
  name : String
  source : String
  joinedAt : Nat
deriving DecidableEq

def sanitizePlayer : Option Player → Option SanPlayer
  | none => none
  | some p => some { id := p.id, name := p.name, source := p.source, joinedAt := p.joinedAt }

structure LastMove where
  src : String
  dst : String
deriving DecidableEq

/-- A session record (the object built by `createNewGame`). -/
structure Game where
  chess : ChessInst
  whitePlayer : Option Player
  blackPlayer : Option Player
  currentPlayer : Color
  selectedSquare : Option String
  validMoves : List String
  lastMove : Option LastMove
  status : String
  moveHistory : List String
  createdAt : Nat
  updatedAt : Nat
deriving DecidableEq

/-- `createNewGame()` (`Date.now()` passed in as `now`). -/
def createNewGame (now : Nat) : Game :=
  { chess := newChess, whitePlayer := none, blackPlayer := none
    currentPlayer := .white, selectedSquare := none, validMoves := []
    lastMove := none, status := "waiting", moveHistory := []
    createdAt := now, updatedAt := now }

/-- `resetGameState(game)`: resets the board, turn, selection, last move,
status and history in place; player bindings and timestamps are untouched. -/
def resetGameState (g : Game) : Game :=
  { g with
    chess := newChess
    currentPlayer := .white
    selectedSquare := none
    validMoves := []
    lastMove := none
    status := "waiting"
    moveHistory := [] }

/-- The in-memory `games` map, as an association list with `Map` semantics. -/
abbrev Store := List (String × Game)

/-- `games.get(id)` / `games.has(id)`. -/
def Store.find : Store → String → Option Game
  | [], _ => none
  | (k, g) :: t, id => if k = id then some g else Store.find t id

/-- `games.set(id, g)`. -/
def Store.set : Store → String → Game → Store
  | [], id, g => [(id, g)]
  | (k, g') :: t, id, g => if k = id then (id, g) :: t else (k, g') :: Store.set t id g

/-- `getOrCreateGame(gameId)`: lazily create a fresh session, returning the
updated map together with the session record it maps `gameId` to. -/
def getOrCreateGame (s : Store) (gameId : String) (now : Nat) : Store × Game :=
  match s.find gameId with
  | some g => (s, g)
  | none =>
    let g := createNewGame now
    (s.set gameId g, g)

/-- `assignPlayer(game, color, player)` (any color other than `"white"`
assigns the black seat, as in the source's `else` branch). -/
def assignPlayer (g : Game) (color : String) (player : Player) (now : Nat) : Game :=
  let g1 :=
    if color = "white" then { g with whitePlayer := some player }
    else { g with blackPlayer := some player }
  let g2 :=
    if g1.status ≠ "finished" then
      if g1.whitePlayer.isSome && g1.blackPlayer.isSome then { g1 with status := "active" }
      else { g1 with status := "waiting" }
    else g1
  { g2 with updatedAt := now }

/-- The per-session record written by `serializeGame` into `games.json`
(`selectedSquare` and `validMoves` are not persisted). -/
structure SerializedGame where
  whitePlayer : Option Player
  blackPlayer : Option Player
  currentPlayer : Color
  lastMove : Option LastMove
  status : String
  moveHistory : List String
  createdAt : Nat
  updatedAt : Nat
  fen : String
deriving DecidableEq

def serializeGame (g : Game) : SerializedGame :=
  { whitePlayer := g.whitePlayer, blackPlayer := g.blackPlayer
    currentPlayer := g.currentPlayer, lastMove := g.lastMove, status := g.status
    moveHistory := g.moveHistory, createdAt := g.createdAt, updatedAt := g.updatedAt
    fen := fenOf g.chess.pos }

/-- `persistGamesToDisk`'s payload (the on-disk JSON object, entry per id). -/
def persistPayload (s : Store) : List (String × SerializedGame) :=
  s.map (fun e => (e.1, serializeGame e.2))

/-- One record of `loadGamesFromDisk`: `new Chess()` then `chess.load(data.fen)`
guarded by a `try`/`catch` that falls back to the fresh position; JS `||`
defaults on the other fields (`0` is falsy for the timestamps, `""` for
`status`). -/
def loadRecord (d : SerializedGame) (now : Nat) : Game :=
  let chess : ChessInst :=
    match (if d.fen = "" then none else fenLoad d.fen) with
    | some p => { pos := p, hist := [] }
    | none => newChess
  { chess := chess
    whitePlayer := d.whitePlayer
    blackPlayer := d.blackPlayer
    currentPlayer := d.currentPlayer
    selectedSquare := none
    validMoves := []
    lastMove := d.lastMove
    status := if d.status = "" then "waiting" else d.status
    moveHistory := d.moveHistory
    createdAt := if d.createdAt = 0 then now else d.createdAt
    updatedAt := if d.updatedAt = 0 then now else d.updatedAt }

/-- `loadGamesFromDisk`: set every record of the snapshot into the (empty at
process start) games map. -/
def restoreStore (payload : List (String × SerializedGame)) (now : Nat) : Store :=
  payload.foldl (fun s e => s.set e.1 (loadRecord e.2 now)) []

/-! ## Server: `POST /move` -/

/-- The request body of `POST /move`; `none` models an absent field. -/
structure MoveReq where
  gameId : Option String
  src : Option String
  dst : Option String
  promotion : Option String
  playerToken : Option String
deriving DecidableEq

/-- JS falsiness of an optional string field (absent or empty). -/
def jsFalsy : Option String → Bool
  | none => true
  | some s => s = ""

/-- `promotion || 'q'` — the queen default of §4.3 step 3. -/
def promoOf : Option String → String
  | some p => if p = "" then "q" else p
  | none => "q"

/-- The response of `POST /move`, one constructor per `return` site. -/
inductive MoveResp where
  /-- 400 `Missing gameId, from or to` -/
  | missingFields
  /-- 404 `Game not found` -/
  | notFound
  /-- 403 `Missing player token` -/
  | missingToken
  /-- 403 `Invalid player token` -/
  | invalidToken
  /-- 423 `Not your turn` -/
  | notYourTurn
  /-- 400, the oracle rejected the move -/
  | invalidMove
  /-- 200 `{success, move, fen, status, moveHistory}` -/
  | ok (move : MoveInfo) (fen : String) (status : String) (moveHistory : List String)
deriving DecidableEq

/-- `(game.whitePlayer && game.whitePlayer.token)` truthiness. -/
def playerTokTruthy : Option Player → Bool
  | some p => !jsFalsy p.token
  | none => false

def hasWebPlayers (g : Game) : Bool :=
  playerTokTruthy g.whitePlayer || playerTokTruthy g.blackPlayer

/-- `game.whitePlayer?.token === playerToken`. -/
def tokMatches (op : Option Player) (tok : String) : Bool :=
  match op with
  | some p => decide (p.token = some tok)
  | none => false

/-- The token checks of `POST /move` (lines 633–654): `some e` is the error
response that ends the request, `none` lets it proceed to the oracle. -/
def authCheck (g : Game) (playerToken : Option String) : Option MoveResp :=
  if hasWebPlayers g then
    if jsFalsy playerToken then some .missingToken
    else
      let tok := playerToken.getD ""
      let allowedWhite := tokMatches g.whitePlayer tok
      let allowedBlack := tokMatches g.blackPlayer tok
      if !allowedWhite && !allowedBlack then some .invalidToken
      else if (match g.currentPlayer with
               | .white => !allowedWhite
               | .black => !allowedBlack) then some .notYourTurn
      else none
  else none

/-- The oracle-consult-and-commit tail of `POST /move` (lines 656–688). -/
def commitMove (s : Store) (gameId fromS toS promoS : String) (g : Game) :
    Store × MoveResp :=
  match chessMove g.chess fromS toS promoS with
  | none => (s, .invalidMove)
  | some (chess', info) =>
    let newStatus := if isCheckmate chess'.pos || isDraw chess'.pos then "finished" else g.status
    let g' := { g with
                chess := chess'
                currentPlayer := chess'.pos.turn
                selectedSquare := none
                validMoves := []
                lastMove := some ⟨fromS, toS⟩
                moveHistory := g.moveHistory ++ [info.san]
                status := newStatus }
    (s.set gameId g', .ok info (fenOf chess'.pos) newStatus (g.moveHistory ++ [info.san]))

/-- `app.post('/move')` (lines 620–689). -/
def moveRoute (s : Store) (req : MoveReq) : Store × MoveResp :=
  if jsFalsy req.gameId || jsFalsy req.src || jsFalsy req.dst then (s, .missingFields)
  else
    let gameId := req.gameId.getD ""
    match s.find gameId with
    | none => (s, .notFound)
    | some g =>
      match authCheck g req.playerToken with
      | some e => (s, e)
      | none =>
        commitMove s gameId (req.src.getD "") (req.dst.getD "") (promoOf req.promotion) g

/-! ## Server: `GET /game/:gameId` -/

structure CapturedPieces where
  white : List PieceKind
  black : List PieceKind
deriving DecidableEq

/-- `getCapturedPieces(game)`: fold the oracle's verbose history. -/
def getCapturedPieces (g : Game) : CapturedPieces :=
  g.chess.hist.foldl
    (fun acc mv =>
      match mv.captured with
      | none => acc
      | some k =>
        match mv.color with
        | .white => { acc with white := acc.white ++ [k] }
        | .black => { acc with black := acc.black ++ [k] })
    { white := [], black := [] }

structure PlayersView where
  white : Option SanPlayer
  black : Option SanPlayer
deriving DecidableEq

structure AvailableColors where
  white : Bool
  black : Bool
deriving DecidableEq

/-- The JSON body returned by `GET /game/:gameId`. -/
structure GameView where
  gameId : String
  fen : String
  currentPlayer : Color
  status : String
  isCheck : Bool
  isCheckmate : Bool
  isDraw : Bool
  moveHistory : List String
  lastMove : Option LastMove
  capturedPieces : CapturedPieces
  players : PlayersView
  availableColors : AvailableColors
  shareUrl : String
deriving DecidableEq

inductive GameResp where
  | notFound
  | ok (v : GameView)
deriving DecidableEq

def buildShareUrl (proto host gameId : String) : String :=
  proto ++ "://" ++ host ++ "/play?gameId=" ++ gameId

/-- `app.get('/game/:gameId')` (lines 691–721): the handler performs no
assignment, so the store it leaves behind is the one it received. -/
def gameRoute (s : Store) (gameId proto host : String) : Store × GameResp :=
  match s.find gameId with
  | none => (s, .notFound)
  | some g =>
    (s, .ok
      { gameId := gameId
        fen := fenOf g.chess.pos
        currentPlayer := g.currentPlayer
        status := g.status
        isCheck := isCheck g.chess.pos
        isCheckmate := isCheckmate g.chess.pos
        isDraw := isDraw g.chess.pos
        moveHistory := g.moveHistory
        lastMove := g.lastMove
        capturedPieces := getCapturedPieces g
        players := { white := sanitizePlayer g.whitePlayer, black := sanitizePlayer g.blackPlayer }
        availableColors := { white := g.whitePlayer.isNone, black := g.blackPlayer.isNone }
        shareUrl := buildShareUrl proto host gameId })

/-! ## Server: `POST /api/games/:gameId/join` and `POST /api/games/:gameId/solo` -/

inductive JoinResp where
  | notFound
  | invalidColor
  | gameFull
  | whiteTaken
  | blackTaken
  | ok (color : String) (token : String) (player : SanPlayer)
deriving DecidableEq

/-- `app.post('/api/games/:gameId/join')` (lines 765–824).  `token` stands for
the fresh `uuidv4()`, `pick` for the `Math.random()` draw used for
`color = 'random'` (an index into the open-colors list). -/
def joinRoute (s : Store) (gameId : String) (color name : Option String)
    (token : String) (pick : Nat) (now : Nat) : Store × JoinResp :=
  if s.find gameId = none then (s, .notFound)
  else
    let normalizedColor := (color.getD "random").toLower
    if normalizedColor ≠ "white" ∧ normalizedColor ≠ "black" ∧ normalizedColor ≠ "random" then
      (s, .invalidColor)
    else
      match s.find gameId with
      | none => (s, .notFound)
      | some g =>
        let openColors := (if g.whitePlayer.isNone then ["white"] else [])
          ++ (if g.blackPlayer.isNone then ["black"] else [])
        if openColors.isEmpty then (s, .gameFull)
        else
          let targetColor :=
            if normalizedColor = "random" then openColors.getD (pick % openColors.length) "white"
            else normalizedColor
          if targetColor = "white" ∧ g.whitePlayer.isSome then (s, .whiteTaken)
          else if targetColor = "black" ∧ g.blackPlayer.isSome then (s, .blackTaken)
          else
            let displayName := formatPlayerName name
              (if targetColor = "white" then "White Player" else "Black Player")
            let player := createPlayer (token ++ "-" ++ targetColor) displayName
              (some token) "web" now
            let g' := assignPlayer g targetColor player now
            (s.set gameId g',
              .ok targetColor token
                { id := player.id, name := player.name, source := player.source
                  joinedAt := player.joinedAt })

structure SoloResp where
  gameId : String
  token : String
  playerName : String
deriving DecidableEq

/-- `app.post('/api/games/:gameId/solo')` (lines 826–869): reset the session
(creating it if absent), bind the same fresh token to both seats, and mark it
active. -/
def soloRoute (s : Store) (gameId : String) (name : Option String)
    (token : String) (now : Nat) : Store × SoloResp :=
  let soloName := formatPlayerName name "Solo Player"
  let g0 :=
    match s.find gameId with
    | some g => g
    | none => createNewGame now
  let g1 := resetGameState g0
  let whitePlayer := createPlayer (token ++ "-white") (soloName ++ " (White)")
    (some token) "web" now
  let blackPlayer := createPlayer (token ++ "-black") (soloName ++ " (Black)")
    (some token) "web" now
  let g2 := assignPlayer g1 "white" whitePlayer now
  let g3 := assignPlayer g2 "black" blackPlayer now
  let g4 := { g3 with status := "active" }
  (s.set gameId g4, { gameId := gameId, token := token, playerName := soloName })

/-- The `games.set(gameId, createNewGame())` reset performed by the frame
handler's New Game buttons (lines 538 and 545) and by `POST /api/games`
(line 756). -/
def newGameReset (s : Store) (gameId : String) (now : Nat) : Store :=
  s.set gameId (createNewGame now)

/-! ## Specification-side derived definitions -/

def MoveResp.isOk : MoveResp → Bool
  | .ok _ _ _ _ => true
  | _ => false

/-- Both seats are bound. -/
def bothSeats (g : Game) : Bool := g.whitePlayer.isSome && g.blackPlayer.isSome

/-- Modelled from the spec: the C8 session invariant.  `t` is the ghost
history bit "a terminal condition has been reached since the last reset"
(set when a committed move's oracle result is checkmate or a draw, or on an
explicit resignation; cleared by a reset).  The first conjunct bridges the
ghost to the stored status; the second is the claimed biconditional. -/
def SessionInv (g : Game) (t : Bool) : Prop :=
  (t = true ↔ g.status = "finished") ∧
    (g.status = "active" ↔ (bothSeats g = true ∧ t = false))

/-- Whether this `POST /move` request's oracle consultation would report a
terminal position (used only to update C8's ghost bit). -/
def oracleReportedTerminal (s : Store) (req : MoveReq) : Bool :=
  match s.find (req.gameId.getD "") with
  | none => false
  | some g =>
    match chessMove g.chess (req.src.getD "") (req.dst.getD "") (promoOf req.promotion) with
    | some (ci, _) => isCheckmate ci.pos || isDraw ci.pos
    | none => false

/-- Modelled from the spec: the ghost-bit update of a `POST /move` request —
set exactly when the request commits a move whose oracle result is
terminal. -/
def ghostAfterMove (s : Store) (req : MoveReq) (t : Bool) : Bool :=
  t || ((moveRoute s req).2.isOk && oracleReportedTerminal s req)

/-- The same session with every binding's possession token removed. -/
def scrubGame (g : Game) : Game :=
  { g with
    whitePlayer := g.whitePlayer.map (fun p => { p with token := none })
    blackPlayer := g.blackPlayer.map (fun p => { p with token := none }) }

/-- Association-list lookup on the persisted snapshot. -/
def findSer : List (String × SerializedGame) → String → Option SerializedGame
  | [], _ => none
  | (k, d) :: t, id => if k = id then some d else findSer t id

/-- The parser-facing side condition: the next character does not continue a
rank (neither an empty-run digit nor a piece letter). -/
def headNotRank : List Char → Prop
  | [] => True
  | c :: _ => rankDigitVal c = none ∧ fenCharPiece c = none

/-- The next character does not continue a decimal number. -/
def headNotDigit : List Char → Prop
  | [] => True
  | c :: _ => digitVal c = none

/-- The well-formedness a position needs for the FEN round trip; every
position the oracle produces satisfies it (`posWF_initial`, `chessMove_wf`). -/
def PosWF (p : Position) : Prop :=
  p.board.length = 64 ∧ ∀ sq ∈ p.ep, sq < 64

/-! ## Store lemmas -/

theorem Store.find_set (s : Store) (id : String) (g : Game) (id2 : String) :
    (s.set id g).find id2 = if id = id2 then some g else s.find id2 := by
  induction s with
  | nil => simp [Store.set, Store.find]
  | cons e t ih =>
    obtain ⟨k, g'⟩ := e
    by_cases hk : k = id
    · subst hk
      by_cases h2 : k = id2 <;> simp [Store.set, Store.find, h2]
    · by_cases h2 : k = id2
      · subst h2
        simp [Store.set, Store.find, hk, Ne.symm hk]
      · simp [Store.set, Store.find, hk, h2, ih]

theorem Store.find_set_self (s : Store) (id : String) (g : Game) :
    (s.set id g).find id = some g := by
  simp [Store.find_set]

/-! ## C6 -/

/-- C6: `getOrCreateGame` is idempotent — calling it twice returns the same
store and the same record; on an id that is already mapped it never resets
or replaces the session; on an absent id it creates a fresh session with
status `waiting`, the oracle's initial position, and no bindings. -/
theorem getOrCreateGame_idempotent (s : Store) (id : String) (now now2 : Nat) :
    (getOrCreateGame (getOrCreateGame s id now).1 id now2 = getOrCreateGame s id now)
    ∧ (∀ g, s.find id = some g → getOrCreateGame s id now = (s, g))
    ∧ (s.find id = none →
        (getOrCreateGame s id now).2 = createNewGame now
          ∧ (getOrCreateGame s id now).1 = s.set id (createNewGame now)
          ∧ (createNewGame now).status = "waiting"
          ∧ (createNewGame now).chess.pos = initialPosition
          ∧ (createNewGame now).whitePlayer = none
          ∧ (createNewGame now).blackPlayer = none) := by
  refine ⟨?_, ?_, ?_⟩
  · cases h : s.find id with
    | some g => simp [getOrCreateGame, h]
    | none => simp [getOrCreateGame, h, Store.find_set_self]
  · intro g h
    simp [getOrCreateGame, h]
  · intro h
    simp [getOrCreateGame, h, createNewGame, newChess]

theorem getOrCreateGame_idempotent_witness :
    getOrCreateGame (getOrCreateGame [] "g" 0).1 "g" 1 = getOrCreateGame [] "g" 0
      ∧ Store.find [] "g" = none ∧ (getOrCreateGame [] "g" 0).2.status = "waiting" :=
  ⟨(getOrCreateGame_idempotent [] "g" 0 1).1, rfl,
    by rw [((getOrCreateGame_idempotent [] "g" 0 1).2.2 rfl).1]; rfl⟩

/-! ## C10 -/

/-- C10: `GET /game/:gameId` is a pure read — the store it returns is the
one it received, the response exposes the bindings only through
`sanitizePlayer`, and the response is unchanged if every binding's token is
removed first (so no token reaches the public view). -/
theorem gameRoute_pure_read (s : Store) (gameId proto host : String) :
    (gameRoute s gameId proto host).1 = s
    ∧ (∀ g, s.find gameId = some g →
        (∃ v, (gameRoute s gameId proto host).2 = .ok v
            ∧ v.players.white = sanitizePlayer g.whitePlayer
            ∧ v.players.black = sanitizePlayer g.blackPlayer)
          ∧ (gameRoute (s.set gameId (scrubGame g)) gameId proto host).2
              = (gameRoute s gameId proto host).2) := by
  constructor
  · cases h : s.find gameId <;> simp [gameRoute, h]
  · intro g h
    refine ⟨⟨{
        gameId := gameId
        fen := fenOf g.chess.pos
        currentPlayer := g.currentPlayer
        status := g.status
        isCheck := isCheck g.chess.pos
        isCheckmate := isCheckmate g.chess.pos
        isDraw := isDraw g.chess.pos
        moveHistory := g.moveHistory
        lastMove := g.lastMove
        capturedPieces := getCapturedPieces g
        players := ⟨sanitizePlayer g.whitePlayer, sanitizePlayer g.blackPlayer⟩
        availableColors := ⟨g.whitePlayer.isNone, g.blackPlayer.isNone⟩
        shareUrl := buildShareUrl proto host gameId },
      by simp [gameRoute, h], rfl, rfl⟩, ?_⟩
    have hscrub : (s.set gameId (scrubGame g)).find gameId = some (scrubGame g) :=
      Store.find_set_self ..
    simp only [gameRoute, h, hscrub]
    cases hw : g.whitePlayer <;> cases hb : g.blackPlayer <;>
      simp [scrubGame, sanitizePlayer, getCapturedPieces, hw, hb]

theorem gameRoute_pure_read_witness :
    (gameRoute [("g", createNewGame 0)] "g" "http" "h").1 = [("g", createNewGame 0)]
      ∧ (gameRoute (Store.set [("g", createNewGame 0)] "g" (scrubGame (createNewGame 0)))
          "g" "http" "h").2 = (gameRoute [("g", createNewGame 0)] "g" "http" "h").2 :=
  ⟨(gameRoute_pure_read [("g", createNewGame 0)] "g" "http" "h").1,
    ((gameRoute_pure_read [("g", createNewGame 0)] "g" "http" "h").2
      (createNewGame 0) rfl).2⟩

/-! ## C1 -/

/-- C1 fails on the code: `POST /move` never inspects `game.status`.  On the
freshly created session `"g"` (status `waiting`, so not `active`), an
untokened request for `e2→e4` succeeds (no `GameNotActiveError` — no status
error exists in the route) and mutates the session's `moveHistory`. -/
theorem moveRoute_ignores_status_cex :
    ((Store.find [("g", createNewGame 0)] "g").map Game.status = some "waiting")
    ∧ ((moveRoute [("g", createNewGame 0)]
        ⟨some "g", some "e2", some "e4", none, none⟩).2.isOk = true)
    ∧ (((moveRoute [("g", createNewGame 0)]
        ⟨some "g", some "e2", some "e4", none, none⟩).1.find "g").map Game.moveHistory
        = some ["e4"]) := by
  decide

/-- C1 amended: `POST /move` does not gate on session status and has no
`GameNotActiveError`; a request on a session whose status is not `active`
goes through the same token and legality checks as any other, so on a
non-active session whose bindings carry no token, a move the oracle accepts
succeeds and mutates the session. -/
theorem moveRoute_ignores_status (s : Store) (gid f t : String) (pr : Option String)
    (g : Game) (ci : ChessInst) (info : MoveInfo)
    (hgid : gid ≠ "") (hf : f ≠ "") (ht : t ≠ "")
    (hfind : s.find gid = some g)
    (_hstatus : g.status ≠ "active")
    (hweb : hasWebPlayers g = false)
    (horacle : chessMove g.chess f t (promoOf pr) = some (ci, info)) :
    (moveRoute s ⟨some gid, some f, some t, pr, none⟩).2
      = .ok info (fenOf ci.pos)
          (if isCheckmate ci.pos || isDraw ci.pos then "finished" else g.status)
          (g.moveHistory ++ [info.san])
    ∧ ((moveRoute s ⟨some gid, some f, some t, pr, none⟩).1.find gid).map Game.moveHistory
        = some (g.moveHistory ++ [info.san]) := by
  simp [moveRoute, jsFalsy, hgid, hf, ht, hfind, authCheck, hweb, commitMove, horacle,
    Store.find_set_self]

theorem moveRoute_ignores_status_witness :
    (moveRoute [("g", createNewGame 0)] ⟨some "g", some "e2", some "e4", none, none⟩).2.isOk
      = true := by
  have h := moveRoute_ignores_status [("g", createNewGame 0)] "g" "e2" "e4" none
    (createNewGame 0)
    ((chessMove (createNewGame 0).chess "e2" "e4" (promoOf none)).getD
      (newChess, ⟨"", "", "", .white, none⟩)).1
    ((chessMove (createNewGame 0).chess "e2" "e4" (promoOf none)).getD
      (newChess, ⟨"", "", "", .white, none⟩)).2
    (by decide) (by decide) (by decide) rfl (by decide) (by decide) (by decide)
  rw [h.1]
  rfl

/-! ## C4 -/

/-- C4: when the oracle rejects a move request that passed the token checks
(illegal move, malformed square, no piece at `from` — all the `none` cases
of `chessMove`), `POST /move` answers the 400 `Invalid move` response and
returns the store it received, so the session is entirely unmutated and a
subsequent `GET /game/:gameId` observes the pre-call state. -/
theorem moveRoute_reject_no_mutation (s : Store) (gid f t proto host : String)
    (pr tk : Option String) (g : Game)
    (hgid : gid ≠ "") (hf : f ≠ "") (ht : t ≠ "")
    (hfind : s.find gid = some g)
    (hauth : authCheck g tk = none)
    (horacle : chessMove g.chess f t (promoOf pr) = none) :
    moveRoute s ⟨some gid, some f, some t, pr, tk⟩ = (s, .invalidMove)
    ∧ (moveRoute s ⟨some gid, some f, some t, pr, tk⟩).1.find gid = some g
    ∧ gameRoute (moveRoute s ⟨some gid, some f, some t, pr, tk⟩).1 gid proto host
        = gameRoute s gid proto host := by
  have hmain : moveRoute s ⟨some gid, some f, some t, pr, tk⟩ = (s, .invalidMove) := by
    simp [moveRoute, jsFalsy, hgid, hf, ht, hfind, hauth, commitMove, horacle]
  exact ⟨hmain, by rw [hmain]; exact hfind, by rw [hmain]⟩

theorem moveRoute_reject_no_mutation_witness :
    moveRoute [("g", createNewGame 0)] ⟨some "g", some "e2", some "e5", none, none⟩
      = ([("g", createNewGame 0)], .invalidMove) :=
  (moveRoute_reject_no_mutation [("g", createNewGame 0)] "g" "e2" "e5" "http" "h"
    none none (createNewGame 0) (by decide) (by decide) (by decide) rfl (by decide)
    (by decide)).1

/-! ## C2 -/

/-- C2: on a session with at least one token-bearing binding, a missing (or
empty, which JS treats the same) token yields the 403 `Missing player token`
response, an unrecognized token the 403 `Invalid player token` response, and
a recognized token that does not authorize the side matching `turn` the 423
`Not your turn` response — each with the store returned unchanged, so
`moveHistory`, `position` and `turn` are untouched.  On a session with no
token-bearing binding, an untokened request is accepted exactly when the
oracle accepts the move. -/
theorem moveRoute_token_auth (s : Store) (gid f t : String) (pr : Option String)
    (g : Game) (hgid : gid ≠ "") (hf : f ≠ "") (ht : t ≠ "")
    (hfind : s.find gid = some g) :
    (hasWebPlayers g = true →
      moveRoute s ⟨some gid, some f, some t, pr, none⟩ = (s, .missingToken)
      ∧ moveRoute s ⟨some gid, some f, some t, pr, some ""⟩ = (s, .missingToken)
      ∧ (∀ tok, tok ≠ "" → tokMatches g.whitePlayer tok = false →
          tokMatches g.blackPlayer tok = false →
          moveRoute s ⟨some gid, some f, some t, pr, some tok⟩ = (s, .invalidToken))
      ∧ (∀ tok, tok ≠ "" →
          (match g.currentPlayer with
           | .white => tokMatches g.whitePlayer tok = false
           | .black => tokMatches g.blackPlayer tok = false) →
          (tokMatches g.whitePlayer tok = true ∨ tokMatches g.blackPlayer tok = true) →
          moveRoute s ⟨some gid, some f, some t, pr, some tok⟩ = (s, .notYourTurn)))
    ∧ (hasWebPlayers g = false →
        (moveRoute s ⟨some gid, some f, some t, pr, none⟩).2.isOk
          = (chessMove g.chess f t (promoOf pr)).isSome
        ∧ (chessMove g.chess f t (promoOf pr) = none →
            moveRoute s ⟨some gid, some f, some t, pr, none⟩ = (s, .invalidMove))) := by
  constructor
  · intro hweb
    refine ⟨?_, ?_, ?_, ?_⟩
    · simp [moveRoute, jsFalsy, hgid, hf, ht, hfind, authCheck, hweb]
    · simp [moveRoute, jsFalsy, hgid, hf, ht, hfind, authCheck, hweb]
    · intro tok htok hw hb
      simp [moveRoute, jsFalsy, hgid, hf, ht, hfind, authCheck, hweb, htok, hw, hb]
    · intro tok htok hcur hsome
      have hor : tokMatches g.whitePlayer tok || tokMatches g.blackPlayer tok = true := by
        rcases hsome with h | h <;> simp [h]
      cases hc : g.currentPlayer <;> rw [hc] at hcur <;>
        simp [moveRoute, jsFalsy, hgid, hf, ht, hfind, authCheck, hweb, htok, hcur, hc] <;>
        [skip; skip] <;> simp_all
  · intro hweb
    have hroute : moveRoute s ⟨some gid, some f, some t, pr, none⟩
        = commitMove s gid f t (promoOf pr) g := by
      simp [moveRoute, jsFalsy, hgid, hf, ht, hfind, authCheck, hweb]
    constructor
    · rw [hroute]
      cases ho : chessMove g.chess f t (promoOf pr) with
      | none => simp [commitMove, ho, MoveResp.isOk]
      | some x => simp [commitMove, ho, MoveResp.isOk]
    · intro ho
      rw [hroute]
      simp [commitMove, ho]

theorem moveRoute_token_auth_witness :
    (moveRoute (soloRoute [] "g" (some "Solo") "tok" 0).1
        ⟨some "g", some "e2", some "e4", none, none⟩
      = ((soloRoute [] "g" (some "Solo") "tok" 0).1, .missingToken))
    ∧ (moveRoute (soloRoute [] "g" (some "Solo") "tok" 0).1
        ⟨some "g", some "e2", some "e4", none, some "bad"⟩
      = ((soloRoute [] "g" (some "Solo") "tok" 0).1, .invalidToken))
    ∧ (moveRoute [("g", createNewGame 0)] ⟨some "g", some "e2", some "e4", none, none⟩).2.isOk
      = (chessMove (createNewGame 0).chess "e2" "e4" (promoOf none)).isSome := by
  have hsolo := moveRoute_token_auth (soloRoute [] "g" (some "Solo") "tok" 0).1 "g" "e2" "e4"
    none ((Store.find (soloRoute [] "g" (some "Solo") "tok" 0).1 "g").getD (createNewGame 0))
    (by decide) (by decide) (by decide) (by decide)
  have hfree := moveRoute_token_auth [("g", createNewGame 0)] "g" "e2" "e4"
    none (createNewGame 0) (by decide) (by decide) (by decide) rfl
  exact ⟨(hsolo.1 (by decide)).1, (hsolo.1 (by decide)).2.2.1 "bad" (by decide) (by decide)
    (by decide), (hfree.2 (by decide)).1⟩

/-! ## C3 -/

/-- C3: when `POST /move` commits a move (the token checks pass and the
oracle accepts), the stored session afterwards has `turn` equal to the
oracle's reported side-to-move, `moveHistory` extended by exactly the
committed move's canonical notation, `lastMove` equal to the request's
`{from, to}`, and its status transitions to `finished` exactly when the
oracle reports checkmate or a draw (a session already `finished` stays
`finished` either way, since the route never rewrites a non-terminal
status). -/
theorem moveRoute_success_post (s : Store) (gid f t : String) (pr tk : Option String)
    (g : Game) (ci : ChessInst) (info : MoveInfo)
    (hgid : gid ≠ "") (hf : f ≠ "") (ht : t ≠ "")
    (hfind : s.find gid = some g)
    (hauth : authCheck g tk = none)
    (horacle : chessMove g.chess f t (promoOf pr) = some (ci, info)) :
    ∃ g', (moveRoute s ⟨some gid, some f, some t, pr, tk⟩).1.find gid = some g'
      ∧ (moveRoute s ⟨some gid, some f, some t, pr, tk⟩).2.isOk = true
      ∧ g'.currentPlayer = ci.pos.turn
      ∧ g'.moveHistory = g.moveHistory ++ [info.san]
      ∧ g'.lastMove = some ⟨f, t⟩
      ∧ ((isCheckmate ci.pos || isDraw ci.pos) = true → g'.status = "finished")
      ∧ (g.status ≠ "finished" →
          (g'.status = "finished" ↔ (isCheckmate ci.pos || isDraw ci.pos) = true)) := by
  have hroute : moveRoute s ⟨some gid, some f, some t, pr, tk⟩
      = commitMove s gid f t (promoOf pr) g := by
    simp [moveRoute, jsFalsy, hgid, hf, ht, hfind, hauth]
  rw [hroute]
  refine ⟨{ g with
      chess := ci
      currentPlayer := ci.pos.turn
      selectedSquare := none
      validMoves := []
      lastMove := some ⟨f, t⟩
      moveHistory := g.moveHistory ++ [info.san]
      status := if isCheckmate ci.pos || isDraw ci.pos then "finished" else g.status },
    by simp [commitMove, horacle, Store.find_set_self],
    by simp [commitMove, horacle, MoveResp.isOk], rfl, rfl, rfl, ?_, ?_⟩
  · intro hterm
    simp [hterm]
  · intro hstatus
    by_cases hterm : (isCheckmate ci.pos || isDraw ci.pos) = true
    · simp [hterm]
    · simp only [Bool.not_eq_true] at hterm
      simp [hterm, hstatus]

theorem moveRoute_success_post_witness :
    ∃ g', (moveRoute [("g", createNewGame 0)]
        ⟨some "g", some "e2", some "e4", none, none⟩).1.find "g" = some g'
      ∧ g'.moveHistory = (createNewGame 0).moveHistory ++
          [((chessMove (createNewGame 0).chess "e2" "e4" (promoOf none)).getD
            (newChess, ⟨"", "", "", .white, none⟩)).2.san] := by
  obtain ⟨g', h1, _, _, h4, _⟩ := moveRoute_success_post [("g", createNewGame 0)]
    "g" "e2" "e4" none none (createNewGame 0)
    ((chessMove (createNewGame 0).chess "e2" "e4" (promoOf none)).getD
      (newChess, ⟨"", "", "", .white, none⟩)).1
    ((chessMove (createNewGame 0).chess "e2" "e4" (promoOf none)).getD
      (newChess, ⟨"", "", "", .white, none⟩)).2
    (by decide) (by decide) (by decide) rfl (by decide) (by decide)
  exact ⟨g', h1, h4⟩

/-! ## Helper lemmas shared by the solo and invariant claims -/

/-- Closed form of `POST /api/games/:gameId/solo`: whatever the prior state,
the stored session afterwards is fully reset with both seats bound to the
one fresh token (only `createdAt` survives from a pre-existing session), and
the response carries the token. -/
theorem soloRoute_result (s : Store) (gid : String) (name : Option String) (tok : String)
    (now : Nat) :
    (soloRoute s gid name tok now).1 = s.set gid
      { chess := newChess
        whitePlayer := some (createPlayer (tok ++ "-white")
          (formatPlayerName name "Solo Player" ++ " (White)") (some tok) "web" now)
        blackPlayer := some (createPlayer (tok ++ "-black")
          (formatPlayerName name "Solo Player" ++ " (Black)") (some tok) "web" now)
        currentPlayer := .white
        selectedSquare := none
        validMoves := []
        lastMove := none
        status := "active"
        moveHistory := []
        createdAt := ((s.find gid).getD (createNewGame now)).createdAt
        updatedAt := now }
    ∧ (soloRoute s gid name tok now).2
        = { gameId := gid, token := tok, playerName := formatPlayerName name "Solo Player" } := by
  cases h0 : s.find gid with
  | none => simp [soloRoute, h0, resetGameState, assignPlayer, createNewGame]
  | some g =>
    cases hb : g.blackPlayer <;>
      simp [soloRoute, h0, hb, resetGameState, assignPlayer]

/-- A session whose two seats both carry the (nonempty) token `tok` passes
the `POST /move` token checks with `tok`, whichever side is to move. -/
theorem authCheck_bothTok (g : Game) (tok : String) (htok : tok ≠ "")
    (hwp : g.whitePlayer.map Player.token = some (some tok))
    (hbp : g.blackPlayer.map Player.token = some (some tok)) :
    authCheck g (some tok) = none := by
  cases hw : g.whitePlayer with
  | none => rw [hw] at hwp; simp at hwp
  | some wp =>
    cases hb : g.blackPlayer with
    | none => rw [hb] at hbp; simp at hbp
    | some bp =>
      rw [hw] at hwp
      rw [hb] at hbp
      simp at hwp hbp
      cases hc : g.currentPlayer <;>
        simp [authCheck, hasWebPlayers, playerTokTruthy, jsFalsy, tokMatches, hw, hb,
          hwp, hbp, htok, hc]

/-- Closed form of the commit tail of `POST /move` when the oracle accepts. -/
theorem commitMove_success (s : Store) (gid f t pro : String) (g : Game)
    (ci : ChessInst) (info : MoveInfo)
    (horacle : chessMove g.chess f t pro = some (ci, info)) :
    commitMove s gid f t pro g
      = (s.set gid { g with
          chess := ci
          currentPlayer := ci.pos.turn
          selectedSquare := none
          validMoves := []
          lastMove := some ⟨f, t⟩
          moveHistory := g.moveHistory ++ [info.san]
          status := if isCheckmate ci.pos || isDraw ci.pos then "finished" else g.status },
        .ok info (fenOf ci.pos)
          (if isCheckmate ci.pos || isDraw ci.pos then "finished" else g.status)
          (g.moveHistory ++ [info.san])) := by
  simp [commitMove, horacle]

/-- `POST /move` reduces to its commit tail once the request is well formed,
the session exists and the token checks pass. -/
theorem moveRoute_commit_eq (s : Store) (gid f t : String) (pr tk : Option String)
    (g : Game) (hgid : gid ≠ "") (hf : f ≠ "") (ht : t ≠ "")
    (hfind : s.find gid = some g) (hauth : authCheck g tk = none) :
    moveRoute s ⟨some gid, some f, some t, pr, tk⟩
      = commitMove s gid f t (promoOf pr) g := by
  simp [moveRoute, jsFalsy, hgid, hf, ht, hfind, hauth]

/-- `soloRoute_result`, repackaged per field of the stored session. -/
theorem soloRoute_fields (s : Store) (gid : String) (name : Option String) (tok : String)
    (now : Nat) :
    ∃ G, (soloRoute s gid name tok now).1.find gid = some G
      ∧ G.chess = newChess
      ∧ G.currentPlayer = Color.white
      ∧ G.whitePlayer = some (createPlayer (tok ++ "-white")
          (formatPlayerName name "Solo Player" ++ " (White)") (some tok) "web" now)
      ∧ G.blackPlayer = some (createPlayer (tok ++ "-black")
          (formatPlayerName name "Solo Player" ++ " (Black)") (some tok) "web" now)
      ∧ G.moveHistory = [] ∧ G.lastMove = none ∧ G.status = "active"
      ∧ (soloRoute s gid name tok now).2.token = tok := by
  obtain ⟨hs1, hresp⟩ := soloRoute_result s gid name tok now
  exact ⟨_, by rw [hs1]; exact Store.find_set_self .., rfl, rfl, rfl, rfl, rfl, rfl, rfl,
    by rw [hresp]⟩

/-! ## C5 -/

/-- C5: `POST /api/games/:gameId/solo` binds one freshly generated token to
both sides, resets the session to the initial position with empty
`moveHistory` and null `lastMove` regardless of prior state, sets status
`active`, and returns the token; afterwards alternating moves presented
with that single token are each authorized, so `e2→e4` then `e7→e5` with it
both succeed and leave `moveHistory = ["e4", "e5"]`. -/
theorem soloRoute_spec (s : Store) (gid : String) (name : Option String) (tok : String)
    (now : Nat) (hgid : gid ≠ "") (htok : tok ≠ "") :
    (∃ g, (soloRoute s gid name tok now).1.find gid = some g
      ∧ g.whitePlayer.map Player.token = some (some tok)
      ∧ g.blackPlayer.map Player.token = some (some tok)
      ∧ g.chess.pos = initialPosition
      ∧ g.moveHistory = [] ∧ g.lastMove = none ∧ g.status = "active"
      ∧ (soloRoute s gid name tok now).2.token = tok)
    ∧ (moveRoute (soloRoute s gid name tok now).1
        ⟨some gid, some "e2", some "e4", none, some tok⟩).2.isOk = true
    ∧ (moveRoute (moveRoute (soloRoute s gid name tok now).1
          ⟨some gid, some "e2", some "e4", none, some tok⟩).1
        ⟨some gid, some "e7", some "e5", none, some tok⟩).2.isOk = true
    ∧ ((moveRoute (moveRoute (soloRoute s gid name tok now).1
          ⟨some gid, some "e2", some "e4", none, some tok⟩).1
        ⟨some gid, some "e7", some "e5", none, some tok⟩).1.find gid).map Game.moveHistory
        = some ["e4", "e5"] := by
  obtain ⟨G, hfind1, hch, hcur, hwp, hbp, hhist, hlast, hstat, htokresp⟩ :=
    soloRoute_fields s gid name tok now
  have hwptok : G.whitePlayer.map Player.token = some (some tok) := by rw [hwp]; rfl
  have hbptok : G.blackPlayer.map Player.token = some (some tok) := by rw [hbp]; rfl
  have hauth1 : authCheck G (some tok) = none := authCheck_bothTok G tok htok hwptok hbptok
  have hfact1 : (chessMove newChess "e2" "e4" (promoOf none)).map
      (fun x => (x.2.san, x.1.pos.turn)) = some ("e4", Color.black) := by decide
  have hfact2 : (chessMove newChess "e2" "e4" (promoOf none)).bind
      (fun x => (chessMove x.1 "e7" "e5" (promoOf none)).map (fun y => y.2.san))
      = some "e5" := by decide
  cases hc1 : chessMove newChess "e2" "e4" (promoOf none) with
  | none => rw [hc1] at hfact1; simp at hfact1
  | some x =>
    obtain ⟨ci1, info1⟩ := x
    rw [hc1] at hfact1 hfact2
    simp only [Option.map_some', Option.some_bind, Option.some.injEq, Prod.mk.injEq] at hfact1
    simp only [Option.some_bind] at hfact2
    have hr1 : moveRoute (soloRoute s gid name tok now).1
        ⟨some gid, some "e2", some "e4", none, some tok⟩
        = ((soloRoute s gid name tok now).1.set gid { G with
            chess := ci1
            currentPlayer := ci1.pos.turn
            selectedSquare := none
            validMoves := []
            lastMove := some ⟨"e2", "e4"⟩
            moveHistory := G.moveHistory ++ [info1.san]
            status := if isCheckmate ci1.pos || isDraw ci1.pos then "finished" else G.status },
          .ok info1 (fenOf ci1.pos)
            (if isCheckmate ci1.pos || isDraw ci1.pos then "finished" else G.status)
            (G.moveHistory ++ [info1.san])) := by
      rw [moveRoute_commit_eq _ _ _ _ _ _ _ hgid (by decide) (by decide) hfind1 hauth1]
      exact commitMove_success _ _ _ _ _ _ _ _ (by rw [hch]; exact hc1)
    have hfind2 : (moveRoute (soloRoute s gid name tok now).1
        ⟨some gid, some "e2", some "e4", none, some tok⟩).1.find gid
        = some { G with
            chess := ci1
            currentPlayer := ci1.pos.turn
            selectedSquare := none
            validMoves := []
            lastMove := some ⟨"e2", "e4"⟩
            moveHistory := G.moveHistory ++ [info1.san]
            status := if isCheckmate ci1.pos || isDraw ci1.pos then "finished" else G.status } := by
      rw [hr1]
      exact Store.find_set_self ..
    have hauth2 : authCheck { G with
        chess := ci1
        currentPlayer := ci1.pos.turn
        selectedSquare := none
        validMoves := []
        lastMove := some ⟨"e2", "e4"⟩
        moveHistory := G.moveHistory ++ [info1.san]
        status := if isCheckmate ci1.pos || isDraw ci1.pos then "finished" else G.status }
        (some tok) = none :=
      authCheck_bothTok _ tok htok hwptok hbptok
    cases hc2 : chessMove ci1 "e7" "e5" (promoOf none) with
    | none => rw [hc2] at hfact2; simp at hfact2
    | some y =>
      obtain ⟨ci2, info2⟩ := y
      rw [hc2] at hfact2
      simp only [Option.map_some', Option.some.injEq] at hfact2
      have hr2 : moveRoute (moveRoute (soloRoute s gid name tok now).1
          ⟨some gid, some "e2", some "e4", none, some tok⟩).1
          ⟨some gid, some "e7", some "e5", none, some tok⟩
          = ((moveRoute (soloRoute s gid name tok now).1
              ⟨some gid, some "e2", some "e4", none, some tok⟩).1.set gid
              { G with
                chess := ci2
                currentPlayer := ci2.pos.turn
                selectedSquare := none
                validMoves := []
                lastMove := some ⟨"e7", "e5"⟩
                moveHistory := (G.moveHistory ++ [info1.san]) ++ [info2.san]
                status := if isCheckmate ci2.pos || isDraw ci2.pos then "finished"
                  else if isCheckmate ci1.pos || isDraw ci1.pos then "finished" else G.status },
            .ok info2 (fenOf ci2.pos)
              (if isCheckmate ci2.pos || isDraw ci2.pos then "finished"
                else if isCheckmate ci1.pos || isDraw ci1.pos then "finished" else G.status)
              ((G.moveHistory ++ [info1.san]) ++ [info2.san])) := by
        rw [moveRoute_commit_eq _ _ _ _ _ _ _ hgid (by decide) (by decide) hfind2 hauth2]
        exact commitMove_success _ _ _ _ _ _ _ _ hc2
      refine ⟨⟨G, hfind1, hwptok, hbptok, by rw [hch]; rfl, hhist, hlast, hstat, htokresp⟩,
        by rw [hr1]; rfl, by rw [hr2]; rfl, ?_⟩
      rw [hr2]
      rw [Store.find_set_self]
      simp [hhist, hfact1.1, hfact2]

theorem soloRoute_spec_witness :
    ((moveRoute (moveRoute (soloRoute [] "g" (some "Solo") "tok" 0).1
          ⟨some "g", some "e2", some "e4", none, some "tok"⟩).1
        ⟨some "g", some "e7", some "e5", none, some "tok"⟩).1.find "g").map Game.moveHistory
      = some ["e4", "e5"] :=
  (soloRoute_spec [] "g" (some "Solo") "tok" 0 (by decide) (by decide)).2.2.2

/-! ## C8 helper lemmas -/

/-- The token checks never answer with the success response. -/
theorem authCheck_not_ok (g : Game) (tk : Option String) (r : MoveResp)
    (h : authCheck g tk = some r) : r.isOk = false := by
  unfold authCheck at h
  by_cases h1 : hasWebPlayers g = true
  · by_cases h2 : jsFalsy tk = true
    · simp [h1, h2] at h
      subst h
      rfl
    · by_cases h3 : (!tokMatches g.whitePlayer (tk.getD "")
          && !tokMatches g.blackPlayer (tk.getD "")) = true
      · simp [h1, h2, h3] at h
        subst h
        rfl
      · by_cases h4 : (match g.currentPlayer with
            | Color.white => !tokMatches g.whitePlayer (tk.getD "")
            | Color.black => !tokMatches g.blackPlayer (tk.getD "")) = true
        · simp [h1, h2, h3, h4] at h
          subst h
          rfl
        · simp [h1, h2, h3, h4] at h
  · simp [h1] at h

/-- `assignPlayer` preserves the C8 invariant with an unchanged ghost bit:
it re-derives `active`/`waiting` from the seats unless the session is
already `finished`. -/
theorem sessionInv_assignPlayer (g : Game) (t : Bool) (color : String) (pl : Player)
    (now : Nat) (hinv : SessionInv g t) : SessionInv (assignPlayer g color pl now) t := by
  obtain ⟨h1, h2⟩ := hinv
  unfold SessionInv bothSeats assignPlayer
  by_cases hfin : g.status = "finished"
  · have ht : t = true := h1.mpr hfin
    by_cases hcol : color = "white" <;>
      simp_all [SessionInv, bothSeats, hfin]
  · have ht : t = false := by
      cases t with
      | true => exact absurd (h1.mp rfl) hfin
      | false => rfl
    subst ht
    by_cases hcol : color = "white"
    · by_cases hb : g.blackPlayer.isSome <;> simp_all [bothSeats]
    · by_cases hw : g.whitePlayer.isSome <;> simp_all [bothSeats]

/-! ## C8 -/

/-- C8: with `t` the ghost bit "a terminal condition (oracle-reported
checkmate or draw, or an explicit termination) has been reached since the
last reset", the biconditional `status = active ↔ (both seats bound ∧ ¬t)`
— together with its bridge `t ↔ status = finished` — is preserved by the
join route, the solo route, move application, the new-game reset, and
restoring the session from its serialized snapshot. -/
theorem sessionInv_preserved (s : Store) (gid : String) (g : Game) (t : Bool)
    (hfind : s.find gid = some g) (hinv : SessionInv g t) :
    (∀ color name token pick now g',
      (joinRoute s gid color name token pick now).1.find gid = some g' → SessionInv g' t)
    ∧ (∀ name token now g',
      (soloRoute s gid name token now).1.find gid = some g' → SessionInv g' false)
    ∧ (∀ req g', req.gameId = some gid →
      (moveRoute s req).1.find gid = some g' → SessionInv g' (ghostAfterMove s req t))
    ∧ (∀ now g', (newGameReset s gid now).find gid = some g' → SessionInv g' false)
    ∧ (∀ now, SessionInv (loadRecord (serializeGame g) now) t) := by
  refine ⟨?_, ?_, ?_, ?_, ?_⟩
  · -- join
    intro color name token pick now g' hfd
    unfold joinRoute at hfd
    simp only [hfind] at hfd
    split_ifs at hfd <;>
      simp [Store.find_set_self, hfind] at hfd <;>
      (try subst hfd) <;>
      first
        | exact hinv
        | exact sessionInv_assignPlayer _ _ _ _ _ hinv
  · -- solo
    intro name token now g' hfd
    obtain ⟨hs1, _⟩ := soloRoute_result s gid name token now
    rw [hs1, Store.find_set_self] at hfd
    injection hfd with h
    subst h
    constructor <;> simp [bothSeats]
  · -- move
    intro req g' hgidreq hfd
    by_cases hfal : (jsFalsy req.gameId || jsFalsy req.src || jsFalsy req.dst) = true
    · have hroute : moveRoute s req = (s, .missingFields) := by
        unfold moveRoute
        rw [if_pos hfal]
      rw [hroute] at hfd
      have hghost : ghostAfterMove s req t = t := by
        simp [ghostAfterMove, hroute, MoveResp.isOk]
      rw [hghost]
      have hfd' : s.find gid = some g' := hfd
      rw [hfind] at hfd'
      injection hfd' with h
      subst h
      exact hinv
    · have hroute : moveRoute s req
          = (match authCheck g req.playerToken with
             | some e => (s, e)
             | none => commitMove s gid (req.src.getD "") (req.dst.getD "")
                 (promoOf req.promotion) g) := by
        unfold moveRoute
        rw [if_neg hfal, hgidreq]
        simp only [Option.getD_some]
        rw [hfind]
      cases hauth : authCheck g req.playerToken with
      | some e =>
        have hroute2 : moveRoute s req = (s, e) := by rw [hroute, hauth]
        rw [hroute2] at hfd
        have hghost : ghostAfterMove s req t = t := by
          simp [ghostAfterMove, hroute2, authCheck_not_ok g req.playerToken e hauth]
        rw [hghost]
        have hfd' : s.find gid = some g' := hfd
        rw [hfind] at hfd'
        injection hfd' with h
        subst h
        exact hinv
      | none =>
        have hroute2 : moveRoute s req
            = commitMove s gid (req.src.getD "") (req.dst.getD "")
                (promoOf req.promotion) g := by rw [hroute, hauth]
        cases horacle : chessMove g.chess (req.src.getD "") (req.dst.getD "")
            (promoOf req.promotion) with
        | none =>
          have hroute3 : moveRoute s req = (s, .invalidMove) := by
            rw [hroute2]
            simp [commitMove, horacle]
          rw [hroute3] at hfd
          have hghost : ghostAfterMove s req t = t := by
            simp [ghostAfterMove, hroute3, MoveResp.isOk]
          rw [hghost]
          have hfd' : s.find gid = some g' := hfd
          rw [hfind] at hfd'
          injection hfd' with h
          subst h
          exact hinv
        | some x =>
          obtain ⟨ci, info⟩ := x
          have hroute3 := hroute2.trans (commitMove_success s gid (req.src.getD "")
            (req.dst.getD "") (promoOf req.promotion) g ci info horacle)
          have hterm : oracleReportedTerminal s req
              = (isCheckmate ci.pos || isDraw ci.pos) := by
            unfold oracleReportedTerminal
            rw [hgidreq]
            simp only [Option.getD_some, hfind, horacle]
          have hghost : ghostAfterMove s req t
              = (t || (isCheckmate ci.pos || isDraw ci.pos)) := by
            simp [ghostAfterMove, hroute3, MoveResp.isOk, hterm]
          rw [hghost]
          rw [hroute3] at hfd
          rw [Store.find_set_self] at hfd
          injection hfd with h
          subst h
          obtain ⟨h1, h2⟩ := hinv
          by_cases htm : (isCheckmate ci.pos || isDraw ci.pos) = true
          · constructor <;> simp [htm, bothSeats]
          · simp only [Bool.not_eq_true] at htm
            simp only [bothSeats, Bool.and_eq_true] at h2
            constructor <;> simp [htm, bothSeats] <;>
              [exact h1; exact h2]

  · -- reset
    intro now g' hfd
    unfold newGameReset at hfd
    rw [Store.find_set_self] at hfd
    injection hfd with h
    subst h
    constructor <;> simp [createNewGame, bothSeats]
  · -- restore
    intro now
    obtain ⟨h1, h2⟩ := hinv
    by_cases hempty : g.status = ""
    · have ht : t = false := by
        cases t with
        | true =>
          have := h1.mp rfl
          rw [hempty] at this
          exact absurd this (by decide)
        | false => rfl
      have hnact : ¬(bothSeats g = true ∧ t = false) := by
        intro hrhs
        have := h2.mpr hrhs
        rw [hempty] at this
        exact absurd this (by decide)
      have hst : (loadRecord (serializeGame g) now).status = "waiting" := by
        simp [loadRecord, serializeGame, hempty]
      constructor
      · rw [hst, ht]
        simp
      · rw [hst]
        have hbs : bothSeats (loadRecord (serializeGame g) now) = bothSeats g := rfl
        rw [hbs]
        simp only [show ("waiting" = "active") = False by simp]
        exact iff_of_false (by simp) hnact
    · have hst : (loadRecord (serializeGame g) now).status = g.status := by
        simp [loadRecord, serializeGame, hempty]
      have hbs : bothSeats (loadRecord (serializeGame g) now) = bothSeats g := rfl
      constructor
      · rw [hst]
        exact h1
      · rw [hst, hbs]
        exact h2

theorem sessionInv_preserved_witness :
    SessionInv (createNewGame 0) false
    ∧ (∀ g', (newGameReset [("g", createNewGame 0)] "g" 3).find "g" = some g'
        → SessionInv g' false)
    ∧ SessionInv (loadRecord (serializeGame (createNewGame 0)) 5) false := by
  have h := sessionInv_preserved [("g", createNewGame 0)] "g" (createNewGame 0) false
    rfl (by constructor <;> simp [createNewGame, bothSeats])
  exact ⟨by constructor <;> simp [createNewGame, bothSeats], h.2.2.2.1 3, h.2.2.2.2 5⟩

/-! ## C9 -/

/-- C9 fails on the code: restoring a snapshot record whose stored position
is invalid degrades the position to the fresh initial position (side to move
white) but keeps the stored `currentPlayer` — here black — so `turn` and the
position's side-to-move diverge. -/
theorem loadRecord_turn_diverges_cex :
    fenLoad "garbage" = none
    ∧ (loadRecord ⟨none, none, .black, none, "active", [], 1, 1, "garbage"⟩ 7).currentPlayer
        = Color.black
    ∧ (loadRecord ⟨none, none, .black, none, "active", [], 1, 1, "garbage"⟩ 7).chess.pos.turn
        = Color.white := by
  refine ⟨by decide, by decide, by decide⟩

/-- C9 amended: `turn` equals the position's side-to-move after every move
commit and after every reset (fresh sessions, `resetGameState`, and
therefore the solo flow), and restore preserves the equality whenever the
stored position is valid; but restore of a record with an invalid stored
position resets the position while keeping the stored `turn`, so the two
can diverge there (see the counterexample). -/
theorem turn_mirrors_side_to_move (s : Store) (req : MoveReq) (gid : String)
    (g : Game) (d : SerializedGame) (now : Nat)
    (hgidreq : req.gameId = some gid) :
    ((moveRoute s req).2.isOk = true →
      ∀ g', (moveRoute s req).1.find gid = some g'
        → g'.currentPlayer = g'.chess.pos.turn)
    ∧ (createNewGame now).currentPlayer = (createNewGame now).chess.pos.turn
    ∧ (resetGameState g).currentPlayer = (resetGameState g).chess.pos.turn
    ∧ (∀ p, fenLoad d.fen = some p → d.fen ≠ "" →
        (loadRecord d now).chess.pos = p ∧ (loadRecord d now).currentPlayer = d.currentPlayer)
    ∧ (g.currentPlayer = g.chess.pos.turn → fenLoad (fenOf g.chess.pos) = some g.chess.pos →
        (loadRecord (serializeGame g) now).currentPlayer
          = (loadRecord (serializeGame g) now).chess.pos.turn) := by
  refine ⟨?_, rfl, rfl, ?_, ?_⟩
  · intro hok g' hfd
    by_cases hfal : (jsFalsy req.gameId || jsFalsy req.src || jsFalsy req.dst) = true
    · have hroute : moveRoute s req = (s, .missingFields) := by
        unfold moveRoute
        rw [if_pos hfal]
      rw [hroute] at hok
      simp [MoveResp.isOk] at hok
    · cases hfind : s.find gid with
      | none =>
        have hroute : moveRoute s req = (s, .notFound) := by
          unfold moveRoute
          rw [if_neg hfal, hgidreq]
          simp only [Option.getD_some]
          rw [hfind]
        rw [hroute] at hok
        simp [MoveResp.isOk] at hok
      | some g0 =>
        have hroute : moveRoute s req
            = (match authCheck g0 req.playerToken with
               | some e => (s, e)
               | none => commitMove s gid (req.src.getD "") (req.dst.getD "")
                   (promoOf req.promotion) g0) := by
          unfold moveRoute
          rw [if_neg hfal, hgidreq]
          simp only [Option.getD_some]
          rw [hfind]
        cases hauth : authCheck g0 req.playerToken with
        | some e =>
          have hroute2 : moveRoute s req = (s, e) := by rw [hroute, hauth]
          rw [hroute2] at hok
          rw [show ((s, e) : Store × MoveResp).2 = e from rfl,
            authCheck_not_ok g0 req.playerToken e hauth] at hok
          simp at hok
        | none =>
          have hroute2 : moveRoute s req
              = commitMove s gid (req.src.getD "") (req.dst.getD "")
                  (promoOf req.promotion) g0 := by rw [hroute, hauth]
          cases horacle : chessMove g0.chess (req.src.getD "") (req.dst.getD "")
              (promoOf req.promotion) with
          | none =>
            have hroute3 : moveRoute s req = (s, .invalidMove) := by
              rw [hroute2]
              simp [commitMove, horacle]
            rw [hroute3] at hok
            simp [MoveResp.isOk] at hok
          | some x =>
            obtain ⟨ci, info⟩ := x
            have hroute3 := hroute2.trans (commitMove_success s gid (req.src.getD "")
              (req.dst.getD "") (promoOf req.promotion) g0 ci info horacle)
            rw [hroute3] at hfd
            rw [Store.find_set_self] at hfd
            injection hfd with h
            subst h
            rfl
  · intro p hp hne
    constructor
    · simp [loadRecord, hne, hp]
    · rfl
  · intro hsync hload
    have hne : fenOf g.chess.pos ≠ "" := by
      intro hupper
      rw [hupper, show fenLoad "" = none from by decide] at hload
      simp at hload
    have hpos : (loadRecord (serializeGame g) now).chess.pos = g.chess.pos := by
      simp [loadRecord, serializeGame, hne, hload]
    rw [hpos]
    exact hsync

theorem turn_mirrors_side_to_move_witness :
    (createNewGame 4).currentPlayer = (createNewGame 4).chess.pos.turn :=
  (turn_mirrors_side_to_move [] ⟨some "g", none, none, none, none⟩ "g"
    (createNewGame 4) (serializeGame (createNewGame 4)) 4 rfl).2.1

/-! ## FEN round-trip lemmas (toward C7) -/

theorem fenCharPiece_fenPieceChar (pc : Piece) : fenCharPiece (fenPieceChar pc) = some pc := by
  obtain ⟨c, k⟩ := pc
  cases c <;> cases k <;> rfl

theorem rankDigitVal_pieceChar (pc : Piece) : rankDigitVal (fenPieceChar pc) = none := by
  obtain ⟨c, k⟩ := pc
  cases c <;> cases k <;> rfl

theorem rankDigitVal_digitChar : ∀ n, n < 9 → 1 ≤ n → rankDigitVal (digitChar n) = some n := by
  decide

theorem pRank_stop (rest : List Char) (h : headNotRank rest) : pRank rest = ([], rest) := by
  cases rest with
  | nil => rfl
  | cons c t =>
    obtain ⟨h1, h2⟩ := h
    simp [pRank, h1, h2]

theorem pRank_enc : ∀ (r : List (Option Piece)) (cnt : Nat) (rest : List Char),
    r.length + cnt ≤ 8 → headNotRank rest →
    pRank (encRankAux r cnt ++ rest) = (List.replicate cnt none ++ r, rest) := by
  intro r
  induction r with
  | nil =>
    intro cnt rest hlen hrest
    cases cnt with
    | zero => simpa [encRankAux] using pRank_stop rest hrest
    | succ k =>
      have hd : rankDigitVal (digitChar (k + 1)) = some (k + 1) :=
        rankDigitVal_digitChar (k + 1) (by omega) (by omega)
      simp [encRankAux, pRank, hd, pRank_stop rest hrest]
  | cons hd tl ih =>
    intro cnt rest hlen hrest
    cases hd with
    | none =>
      have h := ih (cnt + 1) rest (by simp at hlen ⊢; omega) hrest
      rw [show encRankAux (none :: tl) cnt = encRankAux tl (cnt + 1) from rfl, h]
      rw [List.replicate_succ' cnt]
      simp
    | some pc =>
      cases cnt with
      | zero =>
        have h := ih 0 rest (by simp at hlen ⊢; omega) hrest
        simp [encRankAux, pRank, rankDigitVal_pieceChar pc, fenCharPiece_fenPieceChar pc, h]
      | succ k =>
        have hd8 : rankDigitVal (digitChar (k + 1)) = some (k + 1) :=
          rankDigitVal_digitChar (k + 1) (by simp at hlen; omega) (by omega)
        have h := ih 0 rest (by simp at hlen ⊢; omega) hrest
        simp [encRankAux, pRank, hd8, rankDigitVal_pieceChar pc,
          fenCharPiece_fenPieceChar pc, h, List.replicate_succ' k]

theorem pBoard_enc : ∀ (n : Nat) (b : List (Option Piece)) (rest : List Char),
    b.length = 8 * n → headNotRank rest →
    pBoard n (encBoardAux n b ++ rest) = some (b, rest)
  | 0, b, rest, hlen, _hrest => by
    have hb : b = [] := List.eq_nil_of_length_eq_zero (by omega)
    subst hb
    simp [encBoardAux, pBoard]
  | 1, b, rest, hlen, hrest => by
    have htake : b.take 8 = b := List.take_of_length_le (by omega)
    have h := pRank_enc b 0 rest (by omega) hrest
    rw [show encBoardAux 1 b = encRankAux (b.take 8) 0 from rfl, htake]
    simp [pBoard, h, hlen]
  | (n + 2), b, rest, hlen, hrest => by
    have htl : (b.take 8).length = 8 := by
      rw [List.length_take]
      omega
    have hmid : headNotRank ('/' :: (encBoardAux (n + 1) (b.drop 8) ++ rest)) :=
      ⟨by decide, by decide⟩
    have h1 := pRank_enc (b.take 8) 0 ('/' :: (encBoardAux (n + 1) (b.drop 8) ++ rest))
      (by omega) hmid
    have h2 := pBoard_enc (n + 1) (b.drop 8) rest (by rw [List.length_drop]; omega) hrest
    rw [show encBoardAux (n + 2) b
        = encRankAux (b.take 8) 0 ++ '/' :: encBoardAux (n + 1) (b.drop 8) from rfl]
    rw [List.append_assoc, List.cons_append]
    simp [pBoard, h1, htl, h2, List.take_append_drop]

theorem turnOfChar_turnChar (t : Color) : turnOfChar (turnChar t) = some t := by
  cases t <;> rfl

theorem pCastle_enc (cr : Castling) (tail : List Char) :
    pCastle (encCastle cr ++ ' ' :: tail) = some (cr, ' ' :: tail) := by
  obtain ⟨wk, wq, bk, bq⟩ := cr
  cases wk <;> cases wq <;> cases bk <;> cases bq <;> rfl

theorem fileOfChar_fileChar : ∀ f, f < 8 → fileOfChar (fileChar f) = some f := by
  decide

theorem rowOfChar_rowChar : ∀ r, r < 8 → rowOfChar (rowChar r) = some r := by
  decide

theorem fileChar_ne_dash : ∀ f, f < 8 → fileChar f ≠ '-' := by
  decide

theorem pEp_enc (e : Option Nat) (tail : List Char) (hep : ∀ sq ∈ e, sq < 64) :
    pEp (encEp e ++ ' ' :: tail) = some (e, ' ' :: tail) := by
  cases e with
  | none => rfl
  | some sq =>
    have hsq : sq < 64 := hep sq rfl
    have h1 : fileChar (sq % 8) ≠ '-' := fileChar_ne_dash _ (by omega)
    have h2 : fileOfChar (fileChar (sq % 8)) = some (sq % 8) :=
      fileOfChar_fileChar _ (by omega)
    have h3 : rowOfChar (rowChar (sq / 8)) = some (sq / 8) :=
      rowOfChar_rowChar _ (by omega)
    have h4 : sq / 8 * 8 + sq % 8 = sq := by omega
    simp [encEp, sqAlg, sqFile, sqRow, pEp, h1, h2, h3, h4]

theorem digitVal_digitChar : ∀ d, d < 10 → digitVal (digitChar d) = some d := by
  decide

theorem natChars_digits (n : Nat) : ∀ c ∈ natChars n, (digitVal c).isSome := by
  induction n using Nat.strong_induction_on with
  | _ n ih =>
    intro c hc
    by_cases h : n < 10
    · rw [natChars, dif_pos h] at hc
      simp at hc
      subst hc
      rw [digitVal_digitChar n h]
      rfl
    · rw [natChars, dif_neg h] at hc
      rcases List.mem_append.mp hc with h1 | h1
      · exact ih (n / 10) (Nat.div_lt_self (by omega) (by omega)) c h1
      · simp at h1
        subst h1
        rw [digitVal_digitChar (n % 10) (by omega)]
        rfl

theorem natChars_ne_nil (n : Nat) : natChars n ≠ [] := by
  by_cases h : n < 10 <;> rw [natChars] <;> simp [h]

theorem pNatAux_stop (s : List Char) (acc : Nat) (h : headNotDigit s) :
    pNatAux s acc = (acc, s) := by
  cases s with
  | nil => rfl
  | cons c t =>
    have h' : digitVal c = none := h
    simp [pNatAux, h']

theorem pNatAux_enc (n : Nat) : ∀ (acc : Nat) (rest : List Char),
    pNatAux (natChars n ++ rest) acc
      = pNatAux rest (acc * 10 ^ (natChars n).length + n) := by
  induction n using Nat.strong_induction_on with
  | _ n ih =>
    intro acc rest
    by_cases h : n < 10
    · rw [natChars, dif_pos h]
      simp [pNatAux, digitVal_digitChar n h]
    · rw [show natChars n = natChars (n / 10) ++ [digitChar (n % 10)] from by
        rw [natChars, dif_neg h]]
      rw [List.append_assoc, ih (n / 10) (Nat.div_lt_self (by omega) (by omega))]
      rw [show ([digitChar (n % 10)] ++ rest) = digitChar (n % 10) :: rest from rfl]
      simp only [pNatAux, digitVal_digitChar (n % 10) (by omega)]
      congr 1
      simp only [List.length_append, List.length_singleton, pow_succ, ← mul_assoc]
      generalize acc * 10 ^ (natChars (n / 10)).length = k
      omega

theorem pNat_enc (n : Nat) (rest : List Char) (h : headNotDigit rest) :
    pNat (natChars n ++ rest) = some (n, rest) := by
  cases hnc : natChars n with
  | nil => exact absurd hnc (natChars_ne_nil n)
  | cons c t =>
    have hcdig : (digitVal c).isSome := natChars_digits n c (by rw [hnc]; exact List.mem_cons_self ..)
    have haux := pNatAux_enc n 0 rest
    rw [hnc] at haux
    simp only [zero_mul, zero_add] at haux
    rw [pNatAux_stop rest n h] at haux
    try simp only [List.cons_append] at haux
    try simp only [List.cons_append]
    simp [pNat, hcdig, haux]

/-! Well-formedness of oracle-produced positions: the initial position has a
64-square board and an on-board en-passant square, and move application
preserves both, so every reachable position admits the FEN round trip. -/

theorem target_lt_64 {sq : Nat} {df dr : Int} {t : Nat} (h : target sq df dr = some t) :
    t < 64 := by
  simp only [target] at h
  split_ifs at h with hcond
  injection h with h2
  omega

theorem fileOfChar_lt {c : Char} {f : Nat} (h : fileOfChar c = some f) : f < 8 := by
  unfold fileOfChar at h
  split_ifs at h <;> (try simp at h) <;> omega

theorem rowOfChar_lt {c : Char} {r : Nat} (h : rowOfChar c = some r) : r < 8 := by
  unfold rowOfChar at h
  split_ifs at h <;> (try simp at h) <;> omega

theorem parseSq_lt {s : String} {sq : Nat} (h : parseSq s = some sq) : sq < 64 := by
  unfold parseSq at h
  cases hdata : s.data with
  | nil => rw [hdata] at h; simp at h
  | cons c1 tl =>
    cases tl with
    | nil => rw [hdata] at h; simp at h
    | cons c2 tl2 =>
      cases tl2 with
      | nil =>
        rw [hdata] at h
        have h2 : (match fileOfChar c1, rowOfChar c2 with
            | some f, some r => some (r * 8 + f)
            | _, _ => none) = some sq := h
        cases hf : fileOfChar c1 with
        | none => rw [hf] at h2; simp at h2
        | some f =>
          cases hr : rowOfChar c2 with
          | none => rw [hf, hr] at h2; simp at h2
          | some r =>
            rw [hf, hr] at h2
            simp at h2
            have := fileOfChar_lt hf
            have := rowOfChar_lt hr
            omega
      | cons c3 tl3 => rw [hdata] at h; simp at h

theorem applyMv_board_length (p : Position) (m : Mv) (hb : p.board.length = 64) :
    (applyMv p m).board.length = 64 := by
  cases hk : m.kind <;> simp [applyMv, hk, List.length_set, hb]

theorem promoExpand_kind {s d : Nat} {b : Bool} {m : Mv} (h : m ∈ promoExpand s d b) :
    m.kind = MvKind.normal := by
  cases b
  · simp [promoExpand] at h
    simp [h]
  · simp [promoExpand] at h
    rcases h with h | h | h | h <;> simp [h]

theorem stepGen_kind {p : Position} {sq : Nat} {c : Color} {offs : List (Int × Int)} {m : Mv}
    (h : m ∈ stepGen p sq c offs) : m.kind = MvKind.normal := by
  simp only [stepGen, List.mem_flatMap] at h
  obtain ⟨d, _, hmem⟩ := h
  cases ht : target sq d.1 d.2 with
  | none => rw [ht] at hmem; simp at hmem
  | some t =>
    rw [ht] at hmem
    have h2 : m ∈ (match pieceAt p.board t with
        | some q => if q.color ≠ c then [(⟨sq, t, none, MvKind.normal⟩ : Mv)] else []
        | none => [(⟨sq, t, none, MvKind.normal⟩ : Mv)]) := hmem
    cases hq : pieceAt p.board t with
    | some q =>
      rw [hq] at h2
      by_cases hqc : q.color = c
      · simp [hqc] at h2
      · simp [hqc] at h2
        simp [h2]
    | none =>
      rw [hq] at h2
      simp at h2
      simp [h2]

theorem rayGenAux_kind {b : Board} {c : Color} {src : Nat} {d : Int × Int} {m : Mv} :
    ∀ {fuel cur : Nat}, m ∈ rayGenAux b c src d cur fuel → m.kind = MvKind.normal := by
  intro fuel
  induction fuel with
  | zero => intro cur h; simp [rayGenAux] at h
  | succ k ih =>
    intro cur h
    rw [rayGenAux] at h
    cases ht : target cur d.1 d.2 with
    | none => rw [ht] at h; simp at h
    | some t =>
      rw [ht] at h
      have h2 : m ∈ (match pieceAt b t with
          | some q => if q.color ≠ c then [(⟨src, t, none, MvKind.normal⟩ : Mv)] else []
          | none => (⟨src, t, none, MvKind.normal⟩ : Mv) :: rayGenAux b c src d t k) := h
      cases hq : pieceAt b t with
      | some q =>
        rw [hq] at h2
        by_cases hqc : q.color = c
        · simp [hqc] at h2
        · simp [hqc] at h2
          simp [h2]
      | none =>
        rw [hq] at h2
        have h3 : m ∈ ((⟨src, t, none, MvKind.normal⟩ : Mv) :: rayGenAux b c src d t k) := h2
        rcases List.mem_cons.mp h3 with h1 | h1
        · simp [h1]
        · exact ih h1

theorem genCastle_kind {p : Position} {c : Color} {m : Mv} (h : m ∈ genCastle p c) :
    m.kind = MvKind.castleK ∨ m.kind = MvKind.castleQ := by
  unfold genCastle at h
  rcases List.mem_append.mp h with h | h <;> split_ifs at h <;> simp at h <;> simp [h]

theorem genPawn_dbl {p : Position} {sq : Nat} {c : Color} {m : Mv}
    (h : m ∈ genPawn p sq c) (hk : m.kind = MvKind.dbl) : m.src = sq ∧ m.dst < 64 := by
  unfold genPawn at h
  rcases List.mem_append.mp h with h | h
  · cases ht : target sq 0 (pawnDir c) with
    | none => rw [ht] at h; simp at h
    | some t =>
      rw [ht] at h
      have h2 : m ∈ (if pieceAt p.board t = none then
          promoExpand sq t (decide (sqRow t = promoRow c)) ++
            (if sqRow sq = pawnStartRow c then
              match target sq 0 (2 * pawnDir c) with
              | some t2 =>
                if pieceAt p.board t2 = none then [(⟨sq, t2, none, MvKind.dbl⟩ : Mv)] else []
              | none => []
            else [])
          else []) := h
      by_cases he : pieceAt p.board t = none
      · rw [if_pos he] at h2
        rcases List.mem_append.mp h2 with h1 | h1
        · exact absurd (promoExpand_kind h1) (by rw [hk]; decide)
        · by_cases hs : sqRow sq = pawnStartRow c
          · rw [if_pos hs] at h1
            cases ht2 : target sq 0 (2 * pawnDir c) with
            | none => rw [ht2] at h1; simp at h1
            | some t2 =>
              rw [ht2] at h1
              have h3 : m ∈ (if pieceAt p.board t2 = none
                  then [(⟨sq, t2, none, MvKind.dbl⟩ : Mv)] else []) := h1
              by_cases he2 : pieceAt p.board t2 = none
              · rw [if_pos he2] at h3
                simp at h3
                exact ⟨by rw [h3], by rw [h3]; exact target_lt_64 ht2⟩
              · rw [if_neg he2] at h3
                simp at h3
          · rw [if_neg hs] at h1
            simp at h1
      · rw [if_neg he] at h2
        simp at h2
  · simp only [List.mem_flatMap] at h
    obtain ⟨df, _, hmem⟩ := h
    cases ht : target sq df (pawnDir c) with
    | none => rw [ht] at hmem; simp at hmem
    | some t =>
      rw [ht] at hmem
      have h2 : m ∈ (match pieceAt p.board t with
          | some q =>
            if q.color ≠ c then promoExpand sq t (decide (sqRow t = promoRow c)) else []
          | none => if p.ep = some t then [(⟨sq, t, none, MvKind.ep⟩ : Mv)] else []) := hmem
      cases hq : pieceAt p.board t with
      | some q =>
        rw [hq] at h2
        have h3 : m ∈ (if q.color ≠ c
            then promoExpand sq t (decide (sqRow t = promoRow c)) else []) := h2
        by_cases hqc : q.color = c
        · rw [if_neg (not_not_intro hqc)] at h3
          simp at h3
        · rw [if_pos hqc] at h3
          exact absurd (promoExpand_kind h3) (by rw [hk]; decide)
      | none =>
        rw [hq] at h2
        have h3 : m ∈ (if p.ep = some t then [(⟨sq, t, none, MvKind.ep⟩ : Mv)] else []) := h2
        by_cases hep : p.ep = some t
        · rw [if_pos hep] at h3
          simp at h3
          rw [h3] at hk
          simp at hk
        · rw [if_neg hep] at h3
          simp at h3

theorem genPseudo_dbl {p : Position} {sq : Nat} {m : Mv} (hm : m ∈ genPseudo p sq)
    (hk : m.kind = MvKind.dbl) : m.src = sq ∧ m.dst < 64 := by
  unfold genPseudo at hm
  cases hpc : pieceAt p.board sq with
  | none => rw [hpc] at hm; simp at hm
  | some pc =>
    rw [hpc] at hm
    have hm2 : m ∈ (if pc.color ≠ p.turn then [] else
        match pc.kind with
        | PieceKind.pawn => genPawn p sq pc.color
        | PieceKind.knight => stepGen p sq pc.color knightOffs
        | PieceKind.king => stepGen p sq pc.color kingOffs ++ genCastle p pc.color
        | PieceKind.bishop => rayGen p sq pc.color bishopDirs
        | PieceKind.rook => rayGen p sq pc.color rookDirs
        | PieceKind.queen => rayGen p sq pc.color (rookDirs ++ bishopDirs)) := hm
    by_cases hc : pc.color = p.turn
    · have hm3 : m ∈ (match pc.kind with
          | PieceKind.pawn => genPawn p sq pc.color
          | PieceKind.knight => stepGen p sq pc.color knightOffs
          | PieceKind.king => stepGen p sq pc.color kingOffs ++ genCastle p pc.color
          | PieceKind.bishop => rayGen p sq pc.color bishopDirs
          | PieceKind.rook => rayGen p sq pc.color rookDirs
          | PieceKind.queen => rayGen p sq pc.color (rookDirs ++ bishopDirs)) := by
        rw [if_neg (not_not_intro hc)] at hm2
        exact hm2
      cases hpk : pc.kind with
      | pawn =>
        rw [hpk] at hm3
        exact genPawn_dbl hm3 hk
      | knight =>
        rw [hpk] at hm3
        exact absurd (stepGen_kind hm3) (by rw [hk]; decide)
      | king =>
        rw [hpk] at hm3
        have hm4 : m ∈ stepGen p sq pc.color kingOffs ++ genCastle p pc.color := hm3
        rcases List.mem_append.mp hm4 with h1 | h1
        · exact absurd (stepGen_kind h1) (by rw [hk]; decide)
        · rcases genCastle_kind h1 with h2 | h2 <;> (rw [hk] at h2; simp at h2)
      | bishop =>
        rw [hpk] at hm3
        have hm4 : m ∈ rayGen p sq pc.color bishopDirs := hm3
        simp only [rayGen, List.mem_flatMap] at hm4
        obtain ⟨d, _, h1⟩ := hm4
        exact absurd (rayGenAux_kind h1) (by rw [hk]; decide)
      | rook =>
        rw [hpk] at hm3
        have hm4 : m ∈ rayGen p sq pc.color rookDirs := hm3
        simp only [rayGen, List.mem_flatMap] at hm4
        obtain ⟨d, _, h1⟩ := hm4
        exact absurd (rayGenAux_kind h1) (by rw [hk]; decide)
      | queen =>
        rw [hpk] at hm3
        have hm4 : m ∈ rayGen p sq pc.color (rookDirs ++ bishopDirs) := hm3
        simp only [rayGen, List.mem_flatMap] at hm4
        obtain ⟨d, _, h1⟩ := hm4
        exact absurd (rayGenAux_kind h1) (by rw [hk]; decide)
    · rw [if_pos hc] at hm2
      simp at hm2

theorem posWF_initial : PosWF initialPosition :=
  ⟨rfl, by simp [initialPosition]⟩

/-- The oracle's move application preserves the round-trip well-formedness:
every position reachable from the initial one satisfies `PosWF`. -/
theorem chessMove_wf {st st' : ChessInst} {f t pr : String} {info : MoveInfo}
    (hwf : PosWF st.pos) (h : chessMove st f t pr = some (st', info)) : PosWF st'.pos := by
  unfold chessMove at h
  cases hf : parseSq f with
  | none => rw [hf] at h; simp at h
  | some src =>
    cases ht : parseSq t with
    | none => rw [hf, ht] at h; simp at h
    | some dst =>
      rw [hf, ht] at h
      have h2 : chessMoveCore st src dst pr = some (st', info) := h
      unfold chessMoveCore at h2
      cases hfd : (legalFrom st.pos src).find?
          (fun m => decide (m.dst = dst)
            && (m.promo.isNone || decide (m.promo = some (parsePromo pr)))) with
      | none => rw [hfd] at h2; simp at h2
      | some m =>
        rw [hfd] at h2
        have hmem : m ∈ legalFrom st.pos src := List.mem_of_find?_eq_some hfd
        unfold legalFrom at hmem
        have hmem2 : m ∈ genPseudo st.pos src := (List.mem_filter.mp hmem).1
        have hpos : st'.pos = applyMv st.pos m := by
          have h3 := congrArg (fun o => Option.map (fun x => x.1.pos) o) h2
          simp at h3
          exact h3.symm
        constructor
        · rw [hpos]
          exact applyMv_board_length st.pos m hwf.1
        · intro sq hsq
          rw [hpos] at hsq
          by_cases hk : m.kind = MvKind.dbl
          · obtain ⟨hsrc, hdst⟩ := genPseudo_dbl hmem2 hk
            have hepval : (applyMv st.pos m).ep = some ((m.src + m.dst) / 2) := by
              simp [applyMv, hk]
            rw [hepval] at hsq
            simp at hsq
            have hsrclt : src < 64 := parseSq_lt hf
            omega
          · have hepval : (applyMv st.pos m).ep = none := by
              simp [applyMv, hk]
            rw [hepval] at hsq
            simp at hsq

/-- The serialized position format round-trips: parsing what the printer
emits recovers the position, for any position with a full 64-square board
and an on-board en-passant square. -/
theorem fenParse_fenChars (p : Position) (hb : p.board.length = 64)
    (hep : ∀ sq ∈ p.ep, sq < 64) : fenParse (fenChars p) = some p := by
  obtain ⟨b, turn, cr, e, hm, fm⟩ := p
  simp only at hb hep
  have h1 := pBoard_enc 8 b
    (' ' :: turnChar turn :: ' '
      :: (encCastle cr ++ ' ' :: (encEp e ++ ' ' :: (natChars hm ++ ' ' :: natChars fm))))
    (by omega) ⟨by decide, by decide⟩
  have h2 := turnOfChar_turnChar turn
  have h3 := pCastle_enc cr (encEp e ++ ' ' :: (natChars hm ++ ' ' :: natChars fm))
  have h4 := pEp_enc e (natChars hm ++ ' ' :: natChars fm) hep
  have h5 := pNat_enc hm (' ' :: natChars fm) (by exact rfl)
  have h6 : pNat (natChars fm) = some (fm, []) := by
    have := pNat_enc fm [] trivial
    simpa using this
  simp only [fenChars, fenParse, h1, h2, h3, h4, h5, h6]
  simp

/-- `chess.load(chess.fen())` recovers the position. -/
theorem fenLoad_fenOf (p : Position) (hb : p.board.length = 64)
    (hep : ∀ sq ∈ p.ep, sq < 64) : fenLoad (fenOf p) = some p :=
  fenParse_fenChars p hb hep

theorem fenOf_ne_empty (p : Position) : fenOf p ≠ "" := by
  intro h
  have hdata : fenChars p = [] := congrArg String.data h
  have : fenChars p ≠ [] := by
    unfold fenChars
    cases henc : encBoardAux 8 p.board <;> simp
  exact this hdata

/-- A session record round-trips through `serializeGame`/`loadGamesFromDisk`
(up to the reset `selectedSquare`/`validMoves` scratch fields and the
instance-local oracle history, none of which are persisted). -/
theorem loadRecord_serializeGame (now : Nat) (g : Game) (hwf : PosWF g.chess.pos)
    (hstatus : g.status ≠ "") :
    (loadRecord (serializeGame g) now).chess.pos = g.chess.pos
    ∧ (loadRecord (serializeGame g) now).status = g.status
    ∧ (loadRecord (serializeGame g) now).currentPlayer = g.currentPlayer
    ∧ (loadRecord (serializeGame g) now).moveHistory = g.moveHistory
    ∧ (loadRecord (serializeGame g) now).lastMove = g.lastMove
    ∧ (loadRecord (serializeGame g) now).whitePlayer = g.whitePlayer
    ∧ (loadRecord (serializeGame g) now).blackPlayer = g.blackPlayer := by
  have hload : fenLoad (fenOf g.chess.pos) = some g.chess.pos :=
    fenLoad_fenOf g.chess.pos hwf.1 hwf.2
  refine ⟨?_, ?_, rfl, rfl, rfl, rfl, rfl⟩
  · simp [loadRecord, serializeGame, fenOf_ne_empty g.chess.pos, hload]
  · simp [loadRecord, serializeGame, hstatus]

theorem findSer_eq_none_of_not_mem :
    ∀ (tl : List (String × SerializedGame)) (k : String),
    k ∉ tl.map Prod.fst → findSer tl k = none := by
  intro tl
  induction tl with
  | nil => intro k _; rfl
  | cons e t ih =>
    intro k hk
    obtain ⟨k2, d2⟩ := e
    simp only [List.map_cons, List.mem_cons, not_or] at hk
    simp only [findSer, if_neg (Ne.symm hk.1)]
    exact ih k hk.2

/-- Lookup in the restored store, when the snapshot's keys are distinct (as
the keys of a persisted JSON object are). -/
theorem find_restoreStore_aux :
    ∀ (payload : List (String × SerializedGame)) (s0 : Store) (id : String) (now : Nat),
    (payload.map Prod.fst).Nodup →
    Store.find (payload.foldl (fun st e => st.set e.1 (loadRecord e.2 now)) s0) id
      = (match findSer payload id with
         | some d => some (loadRecord d now)
         | none => s0.find id) := by
  intro payload
  induction payload with
  | nil => intro s0 id now _; rfl
  | cons e tl ih =>
    intro s0 id now hnd
    obtain ⟨k, d⟩ := e
    simp only [List.map_cons, List.nodup_cons] at hnd
    rw [List.foldl_cons]
    rw [ih (s0.set k (loadRecord d now)) id now hnd.2]
    by_cases hk : k = id
    · subst hk
      rw [findSer_eq_none_of_not_mem tl k hnd.1]
      simp [findSer, Store.find_set]
    · simp [findSer, hk, Store.find_set, Ne.symm hk]

theorem findSer_persist (s : Store) (id : String) :
    findSer (persistPayload s) id = (s.find id).map serializeGame := by
  induction s with
  | nil => rfl
  | cons e tl ih =>
    obtain ⟨k, g⟩ := e
    simp only [persistPayload, List.map_cons] at ih ⊢
    by_cases hk : k = id <;> simp [findSer, Store.find, hk, ih]

/-! ## C7 -/

/-- C7: persisting the whole store and restoring it into a fresh store
yields, for every stored session, a session whose `position`, `status`,
`turn` and `moveHistory` equal the pre-restart values — the serialized
position format round-trips losslessly.  `PosWF` is the board-shape
well-formedness every oracle-produced position satisfies, and a stored
status is never the empty string. -/
theorem restore_roundtrip (s : Store) (id : String) (g : Game) (now : Nat)
    (hnd : (s.map Prod.fst).Nodup)
    (hfind : s.find id = some g)
    (hwf : PosWF g.chess.pos)
    (hstatus : g.status ≠ "") :
    (∃ g', (restoreStore (persistPayload s) now).find id = some g'
      ∧ g'.chess.pos = g.chess.pos
      ∧ g'.status = g.status
      ∧ g'.currentPlayer = g.currentPlayer
      ∧ g'.moveHistory = g.moveHistory)
    ∧ PosWF initialPosition
    ∧ (∀ (st st' : ChessInst) (f t pr : String) (info : MoveInfo),
        PosWF st.pos → chessMove st f t pr = some (st', info) → PosWF st'.pos) := by
  have hkeys : ((persistPayload s).map Prod.fst).Nodup := by
    have : (persistPayload s).map Prod.fst = s.map Prod.fst := by
      simp [persistPayload]
    rw [this]
    exact hnd
  have h1 := find_restoreStore_aux (persistPayload s) [] id now hkeys
  rw [findSer_persist s id, hfind] at h1
  simp only [Option.map_some'] at h1
  obtain ⟨hp, hs, hc, hm, _⟩ := loadRecord_serializeGame now g hwf hstatus
  exact ⟨⟨loadRecord (serializeGame g) now, by rw [restoreStore]; exact h1, hp, hs, hc, hm⟩,
    posWF_initial, fun st st' f t pr info hw hmv => chessMove_wf hw hmv⟩

theorem restore_roundtrip_witness :
    ∃ g', (restoreStore (persistPayload [("g", createNewGame 0)]) 9).find "g" = some g'
      ∧ g'.chess.pos = (createNewGame 0).chess.pos
      ∧ g'.status = (createNewGame 0).status
      ∧ g'.currentPlayer = (createNewGame 0).currentPlayer
      ∧ g'.moveHistory = (createNewGame 0).moveHistory :=
  (restore_roundtrip [("g", createNewGame 0)] "g" (createNewGame 0) 9
    (by simp) rfl ⟨by decide, by decide⟩ (by decide)).1

end ChessGrid
